import Mathlib

/-!
Shallow embedding of the pooled memory allocator in `src/ram.py`
(`MemoryManager`): size-classed pools of pre-created blocks, allocation and
deallocation, idle-timeout garbage collection, defragmentation, memory-pressure
update and the analytics report.  Timestamps are modelled as `Int`, the
randomized telemetry and random id suffixes as explicit parameters, and the
floating-point ratios as `ℚ`.
-/

/-- Block record: `{'id', 'size', 'allocated_at', 'last_access'}` plus the
`'priority'` key added on first allocation (absent at creation, hence
`Option`). -/
structure Block where
  id : String
  size : Nat
  allocatedAt : Option Int
  lastAccess : Option Int
  priority : Option String
deriving Repr, DecidableEq

/-- One entry of `self.memory_pools[size]`: available list, allocated list,
`total_blocks` and `used_blocks` counters (Python ints, hence `Int`). -/
structure Pool where
  available : List Block
  allocated : List Block
  totalBlocks : Int
  usedBlocks : Int
deriving Repr, DecidableEq

/-- One record of `self.allocation_history`. -/
structure HistRec where
  blockId : String
  size : Nat
  allocatedAt : Int
  priority : String
deriving Repr, DecidableEq

/-- The mutable state of a `MemoryManager` instance (the fields the core
allocator reads or writes). -/
structure MemState where
  pools : List (Nat × Pool)
  history : List HistRec
  totalAllocations : Int
  totalDeallocations : Int
  memoryPressure : ℚ
  currentFragmentation : ℚ
  lastGcTime : Int
deriving Repr, DecidableEq

/-- `pool_sizes = [1, 2, 4, 8, 16, 32, 64, 128, 256, 512]` (KB). -/
def pool_sizes : List Nat := [1, 2, 4, 8, 16, 32, 64, 128, 256, 512]

/-- `block_count = 50 if size <= 16 else 25 if size <= 64 else 10`. -/
def blockCountFor (size : Nat) : Nat :=
  if size ≤ 16 then 50 else if size ≤ 64 then 25 else 10

/-- A freshly created block; `rnd size i` stands for the i-th draw of
`random.randint(1000, 9999)` made while filling the pool for `size`. -/
def mkInitBlock (rnd : Nat → Nat → Nat) (size i : Nat) : Block :=
  { id := "block_" ++ toString size ++ "_" ++ toString (rnd size i)
    size := size
    allocatedAt := none
    lastAccess := none
    priority := none }

/-- One pool as built by `_initialize_memory_pools`. -/
def initPool (rnd : Nat → Nat → Nat) (size : Nat) : Pool :=
  { available := (List.range (blockCountFor size)).map (mkInitBlock rnd size)
    allocated := []
    totalBlocks := (blockCountFor size : Int)
    usedBlocks := 0 }

/-- State right after `MemoryManager.__init__` ran `_initialize_memory_pools`;
`rnd` is the stream of random id suffixes. -/
def initState (rnd : Nat → Nat → Nat) : MemState :=
  { pools := pool_sizes.map (fun sz => (sz, initPool rnd sz))
    history := []
    totalAllocations := 0
    totalDeallocations := 0
    memoryPressure := 0
    currentFragmentation := 0
    lastGcTime := 0 }

/-- Dictionary read `self.memory_pools[k]` (first entry with the key). -/
def findPool : List (Nat × Pool) → Nat → Option Pool
  | [], _ => none
  | (k', p) :: rest, k => if k' = k then some p else findPool rest k

/-- Dictionary write `self.memory_pools[k] = p` on an existing key (replaces
the first entry with the key, keeping insertion order). -/
def updatePools : List (Nat × Pool) → Nat → Pool → List (Nat × Pool)
  | [], _, _ => []
  | (k', p') :: rest, k, p =>
    if k' = k then (k, p) :: rest else (k', p') :: updatePools rest k p

/-- Insertion into a sorted list of keys. -/
def insertSorted (x : Nat) : List Nat → List Nat
  | [] => [x]
  | y :: ys => if x ≤ y then x :: y :: ys else y :: insertSorted x ys

/-- Ascending sort of the key list; on `Nat` keys any comparison sort returns
this same list, so it models Python's `sorted`. -/
def pySorted : List Nat → List Nat
  | [] => []
  | x :: xs => insertSorted x (pySorted xs)

/-- `sorted(self.memory_pools.keys())`. -/
def sortedKeys (s : MemState) : List Nat := pySorted (s.pools.map Prod.fst)

/-- Whether `self.memory_pools[k]['available']` is non-empty. -/
def hasFree (s : MemState) (k : Nat) : Bool :=
  match findPool s.pools k with
  | some p => !p.available.isEmpty
  | none => false

/-- The `best_pool_size` scan of `allocate_memory`: first key in ascending
order with `pool_size >= size` and a non-empty available list. -/
def bestPoolSize (s : MemState) (size : Nat) : Option Nat :=
  (sortedKeys s).find? (fun k => decide (size ≤ k) && hasFree s k)

/-- `MemoryManager.allocate_memory(size, priority)`; `now` stands for
`time.time()`.  Returns the new state and the block id (`None` on failure). -/
def allocate_memory (s : MemState) (now : Int) (size : Nat) (priority : String) :
    MemState × Option String :=
  match bestPoolSize s size with
  | none => (s, none)
  | some k =>
    match findPool s.pools k with
    | none => (s, none)
    | some p =>
      match p.available.getLast? with
      | none => (s, none)
      | some b =>
        let b' : Block :=
          { b with allocatedAt := some now, lastAccess := some now,
                   priority := some priority }
        let p' : Pool :=
          { p with available := p.available.dropLast
                   allocated := p.allocated ++ [b']
                   usedBlocks := p.usedBlocks + 1 }
        ({ s with pools := updatePools s.pools k p'
                  history := s.history ++
                    [{ blockId := b.id, size := size, allocatedAt := now,
                       priority := priority }]
                  totalAllocations := s.totalAllocations + 1 },
         some b.id)

/-- Clearing done by `deallocate_memory`: `allocated_at = last_access = None`
(the stale `priority` key is kept). -/
def clearBlock (b : Block) : Block :=
  { b with allocatedAt := none, lastAccess := none }

/-- Removing the first block with the given id from a list, as
`pool['allocated'].pop(i)` at the first matching index does. -/
def removeFirstById (id : String) : List Block → Option (Block × List Block)
  | [] => none
  | b :: bs =>
    if b.id = id then some (b, bs)
    else (removeFirstById id bs).map (fun x => (x.1, b :: x.2))

/-- The per-pool body of `deallocate_memory`: move the first allocated block
with the id into `available` with cleared timestamps. -/
def deallocInPool (p : Pool) (id : String) : Option Pool :=
  match removeFirstById id p.allocated with
  | some (b, rest) =>
    some { p with available := p.available ++ [clearBlock b]
                  allocated := rest
                  usedBlocks := p.usedBlocks - 1 }
  | none => none

/-- The scan over `self.memory_pools.items()` done by `deallocate_memory`. -/
def deallocPools : List (Nat × Pool) → String → Option (List (Nat × Pool))
  | [], _ => none
  | (k, p) :: rest, id =>
    match deallocInPool p id with
    | some p' => some ((k, p') :: rest)
    | none => (deallocPools rest id).map (fun rest' => (k, p) :: rest')

/-- `MemoryManager.deallocate_memory(block_id)`. -/
def deallocate_memory (s : MemState) (id : String) : MemState × Bool :=
  match deallocPools s.pools id with
  | some ps =>
    ({ s with pools := ps, totalDeallocations := s.totalDeallocations + 1 },
     true)
  | none => (s, false)

/-- `self.gc_threshold = 0.7`. -/
def gc_threshold : ℚ := 7/10

/-- The per-class GC timeout: `180 if pool_size <= 512 else 300`. -/
def timeoutFor (k : Nat) : Int := if k ≤ 512 then 180 else 300

/-- The test `(current_time - block['last_access']) > timeout` of
`garbage_collect` for the class `k` (an unset `last_access` cannot occur on an
allocated block of a reachable state). -/
def blockExpired (now : Int) (k : Nat) (b : Block) : Bool :=
  match b.lastAccess with
  | some t => decide (now - t > timeoutFor k)
  | none => false

/-- The inner loop of `garbage_collect` over the snapshot
`pool['allocated'][:]` of the pool for class `k`, threading the state through
the `deallocate_memory` calls and counting collected blocks. -/
def gcBlocks (now : Int) (k : Nat) : MemState → List Block → Nat → MemState × Nat
  | s, [], c => (s, c)
  | s, b :: bs, c =>
    if blockExpired now k b then
      let r := deallocate_memory s b.id
      gcBlocks now k r.1 bs (if r.2 then c + 1 else c)
    else gcBlocks now k s bs c

/-- One pool's paragraph of the idle-timeout scan: snapshot the pool's
allocated list as the scan reaches it and run the inner loop. -/
def gcStep (now : Int) (acc : MemState × Nat) (k : Nat) : MemState × Nat :=
  match findPool acc.1.pools k with
  | some p => gcBlocks now k acc.1 p.allocated acc.2
  | none => acc

/-- The idle-timeout scan of `garbage_collect` over
`self.memory_pools.items()`. -/
def gcScan (s : MemState) (now : Int) : MemState × Nat :=
  (s.pools.map Prod.fst).foldl (gcStep now) (s, 0)

/-- The inner `for smaller_size in sorted(self.memory_pools.keys())` loop of
`_defragment_memory` for one block `b` currently sitting in class `k`. -/
def defragTryMove (now : Int) (b : Block) (k : Nat) :
    MemState → List Nat → Nat → MemState × Nat
  | s, [], c => (s, c)
  | s, sz :: rest, c =>
    if sz < k ∧ b.size ≤ sz then
      if hasFree s sz then
        let r := deallocate_memory s b.id
        if r.2 then
          let r2 := allocate_memory r.1 now b.size "high"
          (r2.1, if r2.2.isSome then c + 1 else c)
        else defragTryMove now b k r.1 rest c
      else defragTryMove now b k s rest c
    else defragTryMove now b k s rest c

/-- The loop of `_defragment_memory` over the snapshot
`pool['allocated'][:]` of one pool: blocks with
`block['size'] < pool_size * 0.5` are candidates for migration. -/
def defragBlocks (now : Int) (k : Nat) :
    MemState → List Block → Nat → MemState × Nat
  | s, [], c => (s, c)
  | s, b :: bs, c =>
    if (b.size : ℚ) < (k : ℚ) * (1/2) then
      let r := defragTryMove now b k s (sortedKeys s) c
      defragBlocks now k r.1 bs r.2
    else defragBlocks now k s bs c

/-- One pool's paragraph of `_defragment_memory`. -/
def defragStep (now : Int) (acc : MemState × Nat) (k : Nat) : MemState × Nat :=
  match findPool acc.1.pools k with
  | some p => defragBlocks now k acc.1 p.allocated acc.2
  | none => acc

/-- `MemoryManager._defragment_memory()`; returns the new state and the
`defragmented_blocks` count. -/
def defragment_memory (s : MemState) (now : Int) : MemState × Nat :=
  (s.pools.map Prod.fst).foldl (defragStep now) (s, 0)

/-- The report of `garbage_collect` (timing strings omitted). -/
structure GCReport where
  collectedBlocks : Nat
  defragPerformed : Bool
deriving Repr, DecidableEq

/-- `MemoryManager.garbage_collect()`: idle-timeout scan, then automatic
defragmentation when `self.memory_pressure > self.gc_threshold`. -/
def garbage_collect (s : MemState) (now : Int) : MemState × GCReport :=
  let r := gcScan s now
  let doDefrag : Bool := decide (r.1.memoryPressure > gc_threshold)
  let r2 := if doDefrag then defragment_memory r.1 now else (r.1, 0)
  ({ r2.1 with lastGcTime := now },
   { collectedBlocks := r.2 + r2.2, defragPerformed := doDefrag })

/-- The stepped pressure computation of `_update_memory_stats`:
`0.9` if the ratio exceeds `0.9`, `0.7` if it exceeds `0.7`, else the raw
ratio. -/
def steppedPressure (r : ℚ) : ℚ :=
  if r > 9/10 then 9/10 else if r > 7/10 then 7/10 else r

/-- `MemoryManager._update_memory_stats(used_mb, total_mb)`:
`_calculate_fragmentation` returns `5.0` on every path, and the pressure is
the stepped clamp of `used_mb / total_mb`. -/
def update_memory_stats (s : MemState) (used total : ℚ) : MemState :=
  { s with currentFragmentation := 5
           memoryPressure := steppedPressure (used / total) }

/-- `MemoryManager.get_memory_info()` as far as it mutates state: it draws
`used_mb = random.randint(4, 8)` (here the parameter `used_mb`) against
`total_mb = 16` and updates the stats. -/
def get_memory_info (s : MemState) (used_mb : Nat) : MemState :=
  update_memory_stats s (used_mb : ℚ) 16

/-- One entry of the `get_memory_map` result. -/
structure MapEntry where
  sizeClass : Nat
  totalBlocks : Int
  usedBlocks : Int
  freeBlocks : Nat
  utilization : ℚ
deriving Repr, DecidableEq

/-- `MemoryManager.get_memory_map()`. -/
def get_memory_map (s : MemState) : List MapEntry :=
  s.pools.map (fun kp =>
    { sizeClass := kp.1
      totalBlocks := kp.2.totalBlocks
      usedBlocks := kp.2.usedBlocks
      freeBlocks := kp.2.available.length
      utilization := (kp.2.usedBlocks : ℚ) / (kp.2.totalBlocks : ℚ) * 100 })

/-- The report returned by `get_memory_analytics` (string formatting of the
numbers omitted). -/
structure AnalyticsReport where
  allocationPatterns : List (String × Nat)
  predictedUsage : ℚ
  fragmentationTrend : String
  memoryEfficiency : ℚ
  gcRecommendation : String
deriving Repr, DecidableEq

/-- The bucket label built by `get_memory_analytics` for one history record:
`f"{(size // 1024) * 1024}-{((size // 1024) + 1) * 1024}KB"`. -/
def bucketLabel (size : Nat) : String :=
  toString ((size / 1024) * 1024) ++ "-" ++ toString ((size / 1024 + 1) * 1024)
    ++ "KB"

/-- `allocation_patterns[key] = allocation_patterns.get(key, 0) + 1` on an
insertion-ordered dictionary represented as an association list. -/
def bumpPattern : List (String × Nat) → String → List (String × Nat)
  | [], key => [(key, 1)]
  | (k, v) :: rest, key =>
    if k = key then (k, v + 1) :: rest else (k, v) :: bumpPattern rest key

/-- Python's `l[-n:]`. -/
def lastN {α : Type} (n : Nat) (l : List α) : List α := l.drop (l.length - n)

/-- `MemoryManager.get_memory_analytics()`: histogram of the last 100 history
records, the prediction over the last 10 when the history holds more than 10
records (`avg * 1.2`), the trend, efficiency and recommendation strings.  The
function is total: no path of the source raises. -/
def get_memory_analytics (s : MemState) : AnalyticsReport :=
  { allocationPatterns :=
      (lastN 100 s.history).foldl (fun acc r => bumpPattern acc (bucketLabel r.size)) []
    predictedUsage :=
      if s.history.length > 10 then
        ((lastN 10 s.history).map (fun r => (r.size : ℚ))).sum / 10 * (12/10)
      else 0
    fragmentationTrend :=
      if s.currentFragmentation < 15 then "Stable" else "Increasing"
    memoryEfficiency := 100 - s.currentFragmentation
    gcRecommendation := if s.memoryPressure > 7/10 then "Run GC" else "OK" }

/-- One public call on the manager (the arguments that stand for `time.time()`
readings and for the random telemetry draw are explicit). -/
inductive Op where
  | info (used_mb : Nat)
  | alloc (now : Int) (size : Nat) (priority : String)
  | dealloc (id : String)
  | gc (now : Int)
  | defrag (now : Int)

/-- Running one call for its state effect. -/
def runOp (s : MemState) : Op → MemState
  | .info u => get_memory_info s u
  | .alloc now size p => (allocate_memory s now size p).1
  | .dealloc id => (deallocate_memory s id).1
  | .gc now => (garbage_collect s now).1
  | .defrag now => (defragment_memory s now).1

/-- Running a finite sequence of calls. -/
def runOps (s : MemState) (ops : List Op) : MemState := ops.foldl runOp s

/-- All block ids held by one pool (free list first, then allocated list). -/
def poolIds (p : Pool) : List String :=
  p.available.map Block.id ++ p.allocated.map Block.id

/-- All block ids of the state, across every pool. -/
def allIds (s : MemState) : List String :=
  (s.pools.map (fun kp => poolIds kp.2)).flatten

/-- No block id occurs twice anywhere in the registry. -/
def noDupIds (s : MemState) : Prop := (allIds s).Nodup

/-- Structural well-formedness of one pool of class `k`: the capacity
equation, the `used_blocks` count, and the facts that every block carries its
pool's size and that allocated blocks have a `last_access` stamp. -/
def PoolWF (k : Nat) (p : Pool) : Prop :=
  (p.available.length : Int) + (p.allocated.length : Int) = p.totalBlocks ∧
  p.usedBlocks = (p.allocated.length : Int) ∧
  (∀ b ∈ p.available, b.size = k) ∧
  (∀ b ∈ p.allocated, b.size = k ∧ b.lastAccess.isSome)

/-- Structural well-formedness of a manager state: the size-class ladder is
exactly `pool_sizes` and every pool is well-formed. -/
def StateWF (s : MemState) : Prop :=
  s.pools.map Prod.fst = pool_sizes ∧ ∀ kp ∈ s.pools, PoolWF kp.1 kp.2

/-- The capacity invariant of the spec: free plus allocated equals
`total_blocks` in every pool. -/
def capacityInvariant (s : MemState) : Prop :=
  ∀ kp ∈ s.pools, (kp.2.available.length : Int) + (kp.2.allocated.length : Int)
    = kp.2.totalBlocks

/-- The `used_blocks` consistency invariant: the counter equals the length of
the allocated list in every pool, and the memory map reports mutually
consistent used/free/total figures. -/
def usedConsistent (s : MemState) : Prop :=
  (∀ kp ∈ s.pools, kp.2.usedBlocks = (kp.2.allocated.length : Int)) ∧
  (∀ e ∈ get_memory_map s, e.usedBlocks + (e.freeBlocks : Int) = e.totalBlocks)

/-- The uniform effective GC timeout test: every actual size class is at most
512 KB, so the `180 if pool_size <= 512 else 300` rule always yields 180
seconds. -/
def idleExpired (now : Int) (b : Block) : Bool :=
  match b.lastAccess with
  | some t => decide (now - t > 180)
  | none => false

/-- Modelled from the spec: the pressure ratio the specification prescribes,
`total_allocated_bytes / total_capacity_bytes` over the pools (the source
instead feeds `used_mb / total_mb` from randomized telemetry into the stepped
clamp). -/
def specPoolsRatio (s : MemState) : ℚ :=
  ((s.pools.map (fun kp => (kp.1 : ℚ) * (kp.2.allocated.length : ℚ))).sum) /
  ((s.pools.map (fun kp => (kp.1 : ℚ) * (kp.2.totalBlocks : ℚ))).sum)

instance (s : MemState) : Decidable (noDupIds s) := by
  unfold noDupIds; infer_instance

instance (k : Nat) (p : Pool) : Decidable (PoolWF k p) := by
  unfold PoolWF; infer_instance

instance (s : MemState) : Decidable (StateWF s) := by
  unfold StateWF; infer_instance

instance (s : MemState) : Decidable (capacityInvariant s) := by
  unfold capacityInvariant; infer_instance

instance (s : MemState) : Decidable (usedConsistent s) := by
  unfold usedConsistent; infer_instance

theorem removeFirstById_eq_none (id : String) (l : List Block) :
    removeFirstById id l = none ↔ ∀ b ∈ l, b.id ≠ id := by
  induction l with
  | nil => simp [removeFirstById]
  | cons b bs ih =>
    by_cases h : b.id = id
    · simp [removeFirstById, h]
    · simp [removeFirstById, h, Option.map_eq_none', ih]

theorem removeFirstById_eq_some (id : String) (l : List Block) (b : Block)
    (rest : List Block) (h : removeFirstById id l = some (b, rest)) :
    b.id = id ∧ ∃ pre post, l = pre ++ b :: post ∧ rest = pre ++ post ∧
      ∀ x ∈ pre, x.id ≠ id := by
  induction l generalizing b rest with
  | nil => simp [removeFirstById] at h
  | cons a as ih =>
    by_cases ha : a.id = id
    · rw [removeFirstById, if_pos ha] at h
      simp only [Option.some.injEq, Prod.mk.injEq] at h
      obtain ⟨rfl, rfl⟩ := h
      exact ⟨ha, [], as, rfl, rfl, by simp⟩
    · rw [removeFirstById, if_neg ha] at h
      rw [Option.map_eq_some'] at h
      obtain ⟨⟨x, rest'⟩, hr, hf⟩ := h
      simp only [Prod.mk.injEq] at hf
      obtain ⟨rfl, rfl⟩ := hf
      obtain ⟨hid, pre, post, hl, hrest, hpre⟩ := ih x rest' hr
      refine ⟨hid, a :: pre, post, by simp [hl], by simp [hrest], ?_⟩
      intro y hy
      rcases List.mem_cons.mp hy with rfl | hy'
      · exact ha
      · exact hpre y hy'

theorem removeFirstById_append (id : String) (pre : List Block) (b : Block)
    (post : List Block) (hpre : ∀ x ∈ pre, x.id ≠ id) (hb : b.id = id) :
    removeFirstById id (pre ++ b :: post) = some (b, pre ++ post) := by
  induction pre with
  | nil => simp [removeFirstById, hb]
  | cons a as ih =>
    have ha : a.id ≠ id := hpre a (List.mem_cons_self _ _)
    have ih' := ih (fun x hx => hpre x (List.mem_cons_of_mem a hx))
    rw [List.cons_append, removeFirstById, if_neg ha, ih']
    rfl

theorem findPool_cons_self (k : Nat) (p : Pool) (rest : List (Nat × Pool)) :
    findPool ((k, p) :: rest) k = some p := by
  simp [findPool]

theorem findPool_append_of_not_mem (pre rest : List (Nat × Pool)) (k : Nat)
    (h : k ∉ pre.map Prod.fst) : findPool (pre ++ rest) k = findPool rest k := by
  induction pre with
  | nil => rfl
  | cons a as ih =>
    obtain ⟨k', p'⟩ := a
    simp only [List.map_cons, List.mem_cons, not_or] at h
    have hk : k' ≠ k := fun hh => h.1 hh.symm
    rw [List.cons_append, findPool, if_neg hk]
    exact ih h.2

theorem findPool_eq_some_mem (ps : List (Nat × Pool)) (k : Nat) (p : Pool)
    (h : findPool ps k = some p) : (k, p) ∈ ps := by
  induction ps with
  | nil => simp [findPool] at h
  | cons a as ih =>
    obtain ⟨k', p'⟩ := a
    by_cases hk : k' = k
    · subst hk
      rw [findPool, if_pos rfl] at h
      obtain rfl : p' = p := by simpa using h
      exact List.mem_cons_self _ _
    · rw [findPool, if_neg hk] at h
      exact List.mem_cons_of_mem _ (ih h)

theorem findPool_of_mem_nodup (ps : List (Nat × Pool)) (k : Nat) (p : Pool)
    (hnd : (ps.map Prod.fst).Nodup) (h : (k, p) ∈ ps) : findPool ps k = some p := by
  induction ps with
  | nil => simp at h
  | cons a as ih =>
    obtain ⟨k', p'⟩ := a
    simp only [List.map_cons, List.nodup_cons] at hnd
    rcases List.mem_cons.mp h with heq | hmem
    · obtain ⟨rfl, rfl⟩ : k' = k ∧ p' = p := by
        constructor
        · exact (congrArg Prod.fst heq).symm
        · exact (congrArg Prod.snd heq).symm
      exact findPool_cons_self _ _ _
    · have hk : k' ≠ k := by
        intro hh; subst hh
        exact hnd.1 (List.mem_map.mpr ⟨(k', p), hmem, rfl⟩)
      rw [findPool, if_neg hk]
      exact ih hnd.2 hmem

theorem findPool_decomp (ps : List (Nat × Pool)) (k : Nat) (p : Pool)
    (h : findPool ps k = some p) :
    ∃ pre post, ps = pre ++ (k, p) :: post ∧ k ∉ pre.map Prod.fst := by
  induction ps with
  | nil => simp [findPool] at h
  | cons a as ih =>
    obtain ⟨k', p'⟩ := a
    by_cases hk : k' = k
    · subst hk
      rw [findPool, if_pos rfl] at h
      obtain rfl : p' = p := by simpa using h
      exact ⟨[], as, rfl, by simp⟩
    · rw [findPool, if_neg hk] at h
      obtain ⟨pre, post, hps, hkpre⟩ := ih h
      refine ⟨(k', p') :: pre, post, by simp [hps], ?_⟩
      simp only [List.map_cons, List.mem_cons, not_or]
      exact ⟨fun hh => hk hh.symm, hkpre⟩

theorem updatePools_map_fst (ps : List (Nat × Pool)) (k : Nat) (p : Pool) :
    (updatePools ps k p).map Prod.fst = ps.map Prod.fst := by
  induction ps with
  | nil => rfl
  | cons a as ih =>
    obtain ⟨k', p'⟩ := a
    by_cases hk : k' = k
    · subst hk; simp [updatePools]
    · simp [updatePools, hk, ih]

theorem updatePools_decomp (pre post : List (Nat × Pool)) (k : Nat) (p q : Pool)
    (hk : k ∉ pre.map Prod.fst) :
    updatePools (pre ++ (k, p) :: post) k q = pre ++ (k, q) :: post := by
  induction pre with
  | nil => simp [updatePools]
  | cons a as ih =>
    obtain ⟨k', p'⟩ := a
    simp only [List.map_cons, List.mem_cons, not_or] at hk
    have hne : k' ≠ k := fun hh => hk.1 hh.symm
    rw [List.cons_append, updatePools]
    rw [if_neg hne, List.cons_append, ih hk.2]

theorem deallocInPool_eq_none (p : Pool) (id : String) :
    deallocInPool p id = none ↔ ∀ b ∈ p.allocated, b.id ≠ id := by
  rw [← removeFirstById_eq_none id p.allocated]
  unfold deallocInPool
  cases removeFirstById id p.allocated with
  | none => simp
  | some pr => simp

theorem deallocInPool_eq_some (p p' : Pool) (id : String)
    (h : deallocInPool p id = some p') :
    ∃ b pre post, p.allocated = pre ++ b :: post ∧ b.id = id ∧
      (∀ x ∈ pre, x.id ≠ id) ∧
      p' = { p with available := p.available ++ [clearBlock b]
                    allocated := pre ++ post
                    usedBlocks := p.usedBlocks - 1 } := by
  unfold deallocInPool at h
  cases hr : removeFirstById id p.allocated with
  | none => rw [hr] at h; cases h
  | some pr =>
    obtain ⟨b, rest⟩ := pr
    rw [hr] at h
    simp only [Option.some.injEq] at h
    obtain ⟨hid, pre, post, hl, hrest, hpre⟩ :=
      removeFirstById_eq_some id p.allocated b rest hr
    exact ⟨b, pre, post, hl, hid, hpre, by rw [← h, hrest]⟩

theorem deallocPools_eq_none (ps : List (Nat × Pool)) (id : String) :
    deallocPools ps id = none ↔ ∀ kp ∈ ps, ∀ b ∈ kp.2.allocated, b.id ≠ id := by
  induction ps with
  | nil => simp [deallocPools]
  | cons a as ih =>
    obtain ⟨k, p⟩ := a
    cases hp : deallocInPool p id with
    | some p' =>
      simp only [deallocPools, hp]
      constructor
      · intro hc; cases hc
      · intro hall
        have h0 : deallocInPool p id = none :=
          (deallocInPool_eq_none p id).mpr (hall (k, p) (List.mem_cons_self _ _))
        rw [h0] at hp; cases hp
    | none =>
      simp only [deallocPools, hp, Option.map_eq_none']
      rw [ih]
      constructor
      · intro hall kp hkp
        rcases List.mem_cons.mp hkp with rfl | hkp'
        · exact (deallocInPool_eq_none p id).mp hp
        · exact hall kp hkp'
      · intro hall kp hkp
        exact hall kp (List.mem_cons_of_mem _ hkp)

theorem deallocPools_append (pre post : List (Nat × Pool)) (k : Nat) (p p' : Pool)
    (id : String) (hpre : ∀ kp ∈ pre, ∀ b ∈ kp.2.allocated, b.id ≠ id)
    (hp : deallocInPool p id = some p') :
    deallocPools (pre ++ (k, p) :: post) id = some (pre ++ (k, p') :: post) := by
  induction pre with
  | nil => simp [deallocPools, hp]
  | cons a as ih =>
    obtain ⟨k0, p0⟩ := a
    have h0 : deallocInPool p0 id = none :=
      (deallocInPool_eq_none p0 id).mpr (hpre (k0, p0) (List.mem_cons_self _ _))
    have ih' := ih (fun kp hkp => hpre kp (List.mem_cons_of_mem _ hkp))
    rw [List.cons_append, deallocPools]
    rw [h0, ih']
    rfl

theorem deallocPools_eq_some (ps ps' : List (Nat × Pool)) (id : String)
    (h : deallocPools ps id = some ps') :
    ∃ pre k p p' post, ps = pre ++ (k, p) :: post ∧ ps' = pre ++ (k, p') :: post ∧
      deallocInPool p id = some p' ∧
      ∀ kp ∈ pre, ∀ b ∈ kp.2.allocated, b.id ≠ id := by
  induction ps generalizing ps' with
  | nil => simp [deallocPools] at h
  | cons a as ih =>
    obtain ⟨k, p⟩ := a
    cases hp : deallocInPool p id with
    | some q =>
      rw [deallocPools, hp] at h
      simp only [Option.some.injEq] at h
      exact ⟨[], k, p, q, as, rfl, h.symm, hp, by simp⟩
    | none =>
      rw [deallocPools, hp, Option.map_eq_some'] at h
      obtain ⟨rest', hrest, hcons⟩ := h
      obtain ⟨pre, k1, p1, p1', post, has, hrest', hdp, hpre⟩ := ih rest' hrest
      refine ⟨(k, p) :: pre, k1, p1, p1', post, by simp [has], ?_, hdp, ?_⟩
      · rw [← hcons, hrest']; rfl
      · intro kp hkp
        rcases List.mem_cons.mp hkp with rfl | hkp'
        · exact (deallocInPool_eq_none p id).mp hp
        · exact hpre kp hkp'

theorem clearBlock_id (b : Block) : (clearBlock b).id = b.id := rfl

theorem clearBlock_size (b : Block) : (clearBlock b).size = b.size := rfl

theorem PoolWF_dealloc (k : Nat) (p p' : Pool) (id : String) (hwf : PoolWF k p)
    (h : deallocInPool p id = some p') : PoolWF k p' := by
  obtain ⟨b, pre, post, hal, hid, hpre, rfl⟩ := deallocInPool_eq_some p p' id h
  obtain ⟨hcap, hused, hav, hall⟩ := hwf
  have hb : b ∈ p.allocated := by
    rw [hal]; exact List.mem_append_right _ (List.mem_cons_self _ _)
  have hlen : p.allocated.length = pre.length + post.length + 1 := by
    rw [hal]; simp [List.length_append]; omega
  refine ⟨?_, ?_, ?_, ?_⟩
  · simp only [List.length_append, List.length_cons, List.length_nil]
    push_cast
    omega
  · simp only [List.length_append]
    push_cast
    omega
  · intro x hx
    rcases List.mem_append.mp hx with hx' | hx'
    · exact hav x hx'
    · obtain rfl : x = clearBlock b := by simpa using hx'
      rw [clearBlock_size]
      exact (hall b hb).1
  · intro x hx
    have hmem : x ∈ p.allocated := by
      rw [hal]
      rcases List.mem_append.mp hx with hx' | hx'
      · exact List.mem_append_left _ hx'
      · exact List.mem_append_right _ (List.mem_cons_of_mem _ hx')
    exact hall x hmem

theorem deallocPools_map_fst (ps ps' : List (Nat × Pool)) (id : String)
    (h : deallocPools ps id = some ps') : ps'.map Prod.fst = ps.map Prod.fst := by
  obtain ⟨pre, k, p, p', post, rfl, rfl, -, -⟩ := deallocPools_eq_some ps ps' id h
  simp

theorem deallocPools_PoolWF (ps ps' : List (Nat × Pool)) (id : String)
    (hwf : ∀ kp ∈ ps, PoolWF kp.1 kp.2) (h : deallocPools ps id = some ps') :
    ∀ kp ∈ ps', PoolWF kp.1 kp.2 := by
  obtain ⟨pre, k, p, p', post, rfl, rfl, hdp, -⟩ := deallocPools_eq_some ps ps' id h
  intro kp hkp
  rcases List.mem_append.mp hkp with hx | hx
  · exact hwf kp (List.mem_append_left _ hx)
  · rcases List.mem_cons.mp hx with rfl | hx'
    · exact PoolWF_dealloc k p p' id
        (hwf (k, p) (List.mem_append_right _ (List.mem_cons_self _ _))) hdp
    · exact hwf kp (List.mem_append_right _ (List.mem_cons_of_mem _ hx'))

theorem deallocate_memory_of_none (s : MemState) (id : String)
    (h : deallocPools s.pools id = none) : deallocate_memory s id = (s, false) := by
  unfold deallocate_memory
  rw [h]

theorem deallocate_memory_of_some (s : MemState) (id : String)
    (ps' : List (Nat × Pool)) (h : deallocPools s.pools id = some ps') :
    deallocate_memory s id =
      ({ s with pools := ps', totalDeallocations := s.totalDeallocations + 1 },
       true) := by
  unfold deallocate_memory
  rw [h]

theorem StateWF_dealloc (s : MemState) (id : String) (hwf : StateWF s) :
    StateWF (deallocate_memory s id).1 := by
  cases h : deallocPools s.pools id with
  | none => rw [deallocate_memory_of_none s id h]; exact hwf
  | some ps' =>
    rw [deallocate_memory_of_some s id ps' h]
    exact ⟨(deallocPools_map_fst s.pools ps' id h).trans hwf.1,
      deallocPools_PoolWF s.pools ps' id hwf.2 h⟩

theorem bestPoolSize_spec (s : MemState) (size k : Nat)
    (h : bestPoolSize s size = some k) :
    size ≤ k ∧ ∃ p, findPool s.pools k = some p ∧ p.available ≠ [] := by
  have hpred := List.find?_some h
  simp only [Bool.and_eq_true, decide_eq_true_eq] at hpred
  obtain ⟨h1, h2⟩ := hpred
  refine ⟨h1, ?_⟩
  unfold hasFree at h2
  cases hp : findPool s.pools k with
  | none => rw [hp] at h2; cases h2
  | some p =>
    rw [hp] at h2
    simp only [Bool.not_eq_true'] at h2
    exact ⟨p, rfl, fun hnil => by simp [hnil] at h2⟩

theorem allocate_memory_of_none (s : MemState) (now : Int) (size : Nat)
    (priority : String) (h : bestPoolSize s size = none) :
    allocate_memory s now size priority = (s, none) := by
  unfold allocate_memory
  rw [h]

theorem allocate_memory_of_some (s : MemState) (now : Int) (size : Nat)
    (priority : String) (k : Nat) (p : Pool) (b : Block)
    (hb : bestPoolSize s size = some k) (hp : findPool s.pools k = some p)
    (hl : p.available.getLast? = some b) :
    allocate_memory s now size priority =
      ({ s with
          pools := updatePools s.pools k
            { p with available := p.available.dropLast
                     allocated := p.allocated ++
                       [{ b with
                           allocatedAt := some now
                           lastAccess := some now
                           priority := some priority }]
                     usedBlocks := p.usedBlocks + 1 }
          history := s.history ++
            [{ blockId := b.id, size := size, allocatedAt := now,
               priority := priority }]
          totalAllocations := s.totalAllocations + 1 },
       some b.id) := by
  simp only [allocate_memory, hb, hp, hl]

theorem allocate_memory_some_exists (s : MemState) (size : Nat)
    (k : Nat) (hb : bestPoolSize s size = some k) :
    ∃ p b, findPool s.pools k = some p ∧ p.available.getLast? = some b := by
  obtain ⟨-, p, hp, hne⟩ := bestPoolSize_spec s size k hb
  cases hl : p.available.getLast? with
  | none => exact absurd (List.getLast?_eq_none_iff.mp hl) hne
  | some b => exact ⟨p, b, hp, hl⟩

theorem StateWF_alloc (s : MemState) (now : Int) (size : Nat) (priority : String)
    (hwf : StateWF s) : StateWF (allocate_memory s now size priority).1 := by
  cases hb : bestPoolSize s size with
  | none => rw [allocate_memory_of_none s now size priority hb]; exact hwf
  | some k =>
    obtain ⟨p, b, hp, hl⟩ := allocate_memory_some_exists s size k hb
    rw [allocate_memory_of_some s now size priority k p b hb hp hl]
    obtain ⟨ys, hys⟩ := List.getLast?_eq_some_iff.mp hl
    obtain ⟨pre, post, hdec, hkpre⟩ := findPool_decomp s.pools k p hp
    have hmem : (k, p) ∈ s.pools := by
      rw [hdec]; exact List.mem_append_right _ (List.mem_cons_self _ _)
    obtain ⟨hcap, hused, hav, hall⟩ := hwf.2 (k, p) hmem
    refine ⟨?_, ?_⟩
    · dsimp only
      rw [updatePools_map_fst]
      exact hwf.1
    · dsimp only
      rw [hdec, updatePools_decomp pre post k p _ hkpre]
      intro kp hkp
      rcases List.mem_append.mp hkp with hx | hx
      · refine hwf.2 kp ?_
        rw [hdec]; exact List.mem_append_left _ hx
      · rcases List.mem_cons.mp hx with rfl | hx'
        · refine ⟨?_, ?_, ?_, ?_⟩
          · simp only [hys, List.dropLast_concat, List.length_append,
              List.length_cons, List.length_nil] at hcap ⊢
            push_cast at hcap ⊢
            omega
          · simp only [List.length_append, List.length_cons, List.length_nil]
            push_cast
            push_cast at hused
            omega
          · intro x hx2
            exact hav x ((List.dropLast_sublist p.available).subset hx2)
          · intro x hx2
            rcases List.mem_append.mp hx2 with hx3 | hx3
            · exact hall x hx3
            · obtain rfl : x = { b with
                  allocatedAt := some now
                  lastAccess := some now
                  priority := some priority } := by
                simpa using hx3
              refine ⟨hav b (List.mem_of_getLast?_eq_some hl), rfl⟩
        · refine hwf.2 kp ?_
          rw [hdec]; exact List.mem_append_right _ (List.mem_cons_of_mem _ hx')

theorem gcBlocks_StateWF (now : Int) (k : Nat) :
    ∀ (bs : List Block) (s : MemState) (c : Nat), StateWF s →
      StateWF (gcBlocks now k s bs c).1
  | [], s, c, h => h
  | b :: bs, s, c, h => by
    cases he : blockExpired now k b with
    | false =>
      rw [gcBlocks, if_neg (by simp [he])]
      exact gcBlocks_StateWF now k bs s c h
    | true =>
      rw [gcBlocks, if_pos (by simp [he])]
      exact gcBlocks_StateWF now k bs _ _ (StateWF_dealloc s b.id h)

theorem gcStep_StateWF (now : Int) (acc : MemState × Nat) (k : Nat)
    (h : StateWF acc.1) : StateWF (gcStep now acc k).1 := by
  cases hp : findPool acc.1.pools k with
  | none => simpa only [gcStep, hp] using h
  | some p =>
    simp only [gcStep, hp]
    exact gcBlocks_StateWF now k p.allocated acc.1 acc.2 h

theorem foldl_gcStep_StateWF (now : Int) (ks : List Nat) :
    ∀ (acc : MemState × Nat), StateWF acc.1 →
      StateWF (ks.foldl (gcStep now) acc).1 := by
  induction ks with
  | nil => intro acc h; exact h
  | cons k ks ih =>
    intro acc h
    rw [List.foldl_cons]
    exact ih _ (gcStep_StateWF now acc k h)

theorem gcScan_StateWF (s : MemState) (now : Int) (h : StateWF s) :
    StateWF (gcScan s now).1 :=
  foldl_gcStep_StateWF now _ (s, 0) h

theorem defragBlocks_noop (now : Int) (k : Nat) :
    ∀ (bs : List Block) (s : MemState) (c : Nat), (∀ b ∈ bs, b.size = k) →
      defragBlocks now k s bs c = (s, c)
  | [], s, c, _ => rfl
  | b :: bs, s, c, hsz => by
    have hb : b.size = k := hsz b (List.mem_cons_self _ _)
    have hk0 : (0 : ℚ) ≤ (k : ℚ) := Nat.cast_nonneg k
    have hcond : ¬ ((b.size : ℚ) < (k : ℚ) * (1/2)) := by
      rw [hb]
      intro hlt
      nlinarith
    rw [defragBlocks, if_neg hcond]
    exact defragBlocks_noop now k bs s c (fun x hx => hsz x (List.mem_cons_of_mem _ hx))

theorem defragStep_noop (now : Int) (acc : MemState × Nat) (k : Nat)
    (hwf : StateWF acc.1) : defragStep now acc k = acc := by
  cases hp : findPool acc.1.pools k with
  | none => simp only [defragStep, hp]
  | some p =>
    have hmem := findPool_eq_some_mem _ _ _ hp
    have hsz : ∀ b ∈ p.allocated, b.size = k :=
      fun b hb => ((hwf.2 (k, p) hmem).2.2.2 b hb).1
    simp only [defragStep, hp]
    rw [defragBlocks_noop now k p.allocated acc.1 acc.2 hsz]

theorem foldl_defragStep_noop (now : Int) (ks : List Nat) :
    ∀ (acc : MemState × Nat), StateWF acc.1 →
      ks.foldl (defragStep now) acc = acc := by
  induction ks with
  | nil => intro acc _; rfl
  | cons k ks ih =>
    intro acc h
    rw [List.foldl_cons, defragStep_noop now acc k h]
    exact ih acc h

theorem defragment_noop (s : MemState) (now : Int) (hwf : StateWF s) :
    defragment_memory s now = (s, 0) := by
  unfold defragment_memory
  exact foldl_defragStep_noop now _ (s, 0) hwf

theorem StateWF_gc (s : MemState) (now : Int) (hwf : StateWF s) :
    StateWF (garbage_collect s now).1 := by
  have h1 : StateWF (gcScan s now).1 := gcScan_StateWF s now hwf
  cases hd : decide ((gcScan s now).1.memoryPressure > gc_threshold) with
  | false =>
    simp only [garbage_collect, hd, Bool.false_eq_true, if_false]
    exact h1
  | true =>
    simp only [garbage_collect, hd, if_true]
    rw [defragment_noop _ now h1]
    exact h1

theorem StateWF_runOp (s : MemState) (op : Op) (hwf : StateWF s) :
    StateWF (runOp s op) := by
  cases op with
  | info u => exact hwf
  | alloc now size p => exact StateWF_alloc s now size p hwf
  | dealloc id => exact StateWF_dealloc s id hwf
  | gc now => exact StateWF_gc s now hwf
  | defrag now =>
    show StateWF (defragment_memory s now).1
    rw [defragment_noop s now hwf]
    exact hwf

theorem StateWF_runOps (ops : List Op) :
    ∀ (s : MemState), StateWF s → StateWF (runOps s ops) := by
  induction ops with
  | nil => intro s h; exact h
  | cons op ops ih =>
    intro s h
    rw [runOps, List.foldl_cons]
    exact ih _ (StateWF_runOp s op h)

theorem initState_StateWF (rnd : Nat → Nat → Nat) : StateWF (initState rnd) := by
  constructor
  · show (pool_sizes.map (fun sz => (sz, initPool rnd sz))).map Prod.fst = pool_sizes
    rw [List.map_map]
    exact List.map_id'' (fun sz => rfl) pool_sizes
  · intro kp hkp
    simp only [initState, List.mem_map] at hkp
    obtain ⟨sz, hsz, rfl⟩ := hkp
    refine ⟨?_, ?_, ?_, ?_⟩
    · simp [initPool]
    · simp [initPool]
    · intro b hb
      simp only [initPool, List.mem_map] at hb
      obtain ⟨i, hi, rfl⟩ := hb
      rfl
    · intro b hb
      simp [initPool] at hb

/-- C1: for every size class pool, the number of blocks in its free list plus
the number in its allocated list equals the pool's fixed `total_blocks`
capacity after initialization and after any finite sequence of allocate,
deallocate, garbage-collect and defragment calls, failed operations
included. -/
theorem C1_capacity_invariant (rnd : Nat → Nat → Nat) (ops : List Op) :
    capacityInvariant (runOps (initState rnd) ops) := by
  have hwf := StateWF_runOps ops (initState rnd) (initState_StateWF rnd)
  intro kp hkp
  exact (hwf.2 kp hkp).1

/-- C10: for every size class pool, the `used_blocks` counter equals the
length of the allocated list after initialization and after every operation,
and the per-class used, free and total figures of `get_memory_map` are
mutually consistent. -/
theorem C10_used_blocks_consistent (rnd : Nat → Nat → Nat) (ops : List Op) :
    usedConsistent (runOps (initState rnd) ops) := by
  have hwf := StateWF_runOps ops (initState rnd) (initState_StateWF rnd)
  constructor
  · intro kp hkp
    exact (hwf.2 kp hkp).2.1
  · intro e he
    simp only [get_memory_map, List.mem_map] at he
    obtain ⟨kp, hkp, rfl⟩ := he
    have h1 := (hwf.2 kp hkp).1
    have h2 := (hwf.2 kp hkp).2.1
    dsimp only
    omega

theorem poolIds_dealloc_perm (p p' : Pool) (id : String)
    (h : deallocInPool p id = some p') : List.Perm (poolIds p') (poolIds p) := by
  obtain ⟨b, bpre, bpost, hal, -, -, rfl⟩ := deallocInPool_eq_some p p' id h
  show List.Perm
    ((p.available ++ [clearBlock b]).map Block.id ++ (bpre ++ bpost).map Block.id)
    (p.available.map Block.id ++ p.allocated.map Block.id)
  rw [hal]
  simp only [List.map_append, List.map_cons, List.map_nil, List.map_singleton,
    clearBlock_id, List.append_assoc, List.singleton_append, List.append_nil,
    List.nil_append]
  exact List.Perm.append_left _ List.perm_middle.symm

theorem deallocate_perm (s : MemState) (id : String) :
    List.Perm (allIds (deallocate_memory s id).1) (allIds s) := by
  cases h : deallocPools s.pools id with
  | none => rw [deallocate_memory_of_none s id h]
  | some ps' =>
    rw [deallocate_memory_of_some s id ps' h]
    obtain ⟨pre, k, p, p', post, hps, hps', hdp, -⟩ :=
      deallocPools_eq_some s.pools ps' id h
    show List.Perm ((ps').map (fun kp => poolIds kp.2)).flatten (allIds s)
    rw [hps']
    show List.Perm _ ((s.pools).map (fun kp => poolIds kp.2)).flatten
    rw [hps]
    simp only [List.map_append, List.map_cons, List.flatten_append,
      List.flatten_cons]
    refine List.Perm.append_left _ ?_
    exact (poolIds_dealloc_perm p p' id hdp).append_right _

theorem allocate_perm (s : MemState) (now : Int) (size : Nat) (priority : String) :
    List.Perm (allIds (allocate_memory s now size priority).1) (allIds s) := by
  cases hb : bestPoolSize s size with
  | none => rw [allocate_memory_of_none s now size priority hb]
  | some k =>
    obtain ⟨p, b, hp, hl⟩ := allocate_memory_some_exists s size k hb
    rw [allocate_memory_of_some s now size priority k p b hb hp hl]
    obtain ⟨ys, hys⟩ := List.getLast?_eq_some_iff.mp hl
    obtain ⟨pre, post, hdec, hkpre⟩ := findPool_decomp s.pools k p hp
    show List.Perm ((updatePools s.pools k _).map (fun kp => poolIds kp.2)).flatten (allIds s)
    rw [hdec, updatePools_decomp pre post k p _ hkpre]
    show List.Perm _ ((s.pools).map (fun kp => poolIds kp.2)).flatten
    rw [hdec]
    simp only [List.map_append, List.map_cons, List.flatten_append,
      List.flatten_cons]
    refine List.Perm.append_left _ (List.Perm.append_right _ ?_)
    show List.Perm (poolIds _) (poolIds p)
    unfold poolIds
    rw [hys]
    simp only [List.dropLast_concat, List.map_append, List.map_cons,
      List.map_singleton, List.map_nil, List.append_assoc, List.singleton_append]
    refine List.Perm.append_left _ ?_
    show List.Perm (p.allocated.map Block.id ++ [b.id]) (b.id :: p.allocated.map Block.id)
    exact List.perm_append_comm

theorem gcBlocks_perm (now : Int) (k : Nat) :
    ∀ (bs : List Block) (s : MemState) (c : Nat),
      List.Perm (allIds (gcBlocks now k s bs c).1) (allIds s)
  | [], s, c => List.Perm.refl _
  | b :: bs, s, c => by
    cases he : blockExpired now k b with
    | false =>
      rw [gcBlocks, if_neg (by simp [he])]
      exact gcBlocks_perm now k bs s c
    | true =>
      rw [gcBlocks, if_pos (by simp [he])]
      exact (gcBlocks_perm now k bs _ _).trans (deallocate_perm s b.id)

theorem gcStep_perm (now : Int) (acc : MemState × Nat) (k : Nat) :
    List.Perm (allIds (gcStep now acc k).1) (allIds acc.1) := by
  cases hp : findPool acc.1.pools k with
  | none =>
    simp only [gcStep, hp]
    exact List.Perm.refl _
  | some p =>
    simp only [gcStep, hp]
    exact gcBlocks_perm now k p.allocated acc.1 acc.2

theorem foldl_gcStep_perm (now : Int) (ks : List Nat) :
    ∀ (acc : MemState × Nat),
      List.Perm (allIds (ks.foldl (gcStep now) acc).1) (allIds acc.1) := by
  induction ks with
  | nil => intro acc; exact List.Perm.refl _
  | cons k ks ih =>
    intro acc
    rw [List.foldl_cons]
    exact (ih _).trans (gcStep_perm now acc k)

theorem defragTryMove_perm (now : Int) (b : Block) (k : Nat) :
    ∀ (szs : List Nat) (s : MemState) (c : Nat),
      List.Perm (allIds (defragTryMove now b k s szs c).1) (allIds s)
  | [], s, c => List.Perm.refl _
  | sz :: rest, s, c => by
    by_cases h1 : sz < k ∧ b.size ≤ sz
    · rw [defragTryMove, if_pos h1]
      cases h2 : hasFree s sz with
      | false =>
        simp only [Bool.false_eq_true, if_false]
        exact defragTryMove_perm now b k rest s c
      | true =>
        simp only [if_true]
        cases h3 : (deallocate_memory s b.id).2 with
        | false =>
          simp only [h3, Bool.false_eq_true, if_false]
          have hperm := deallocate_perm s b.id
          exact (defragTryMove_perm now b k rest _ c).trans hperm
        | true =>
          simp only [h3, if_true]
          exact (allocate_perm _ now b.size "high").trans (deallocate_perm s b.id)
    · rw [defragTryMove, if_neg h1]
      exact defragTryMove_perm now b k rest s c

theorem defragBlocks_perm (now : Int) (k : Nat) :
    ∀ (bs : List Block) (s : MemState) (c : Nat),
      List.Perm (allIds (defragBlocks now k s bs c).1) (allIds s)
  | [], s, c => List.Perm.refl _
  | b :: bs, s, c => by
    by_cases h1 : (b.size : ℚ) < (k : ℚ) * (1/2)
    · rw [defragBlocks, if_pos h1]
      exact (defragBlocks_perm now k bs _ _).trans
        (defragTryMove_perm now b k (sortedKeys s) s c)
    · rw [defragBlocks, if_neg h1]
      exact defragBlocks_perm now k bs s c

theorem defragStep_perm (now : Int) (acc : MemState × Nat) (k : Nat) :
    List.Perm (allIds (defragStep now acc k).1) (allIds acc.1) := by
  cases hp : findPool acc.1.pools k with
  | none =>
    simp only [defragStep, hp]
    exact List.Perm.refl _
  | some p =>
    simp only [defragStep, hp]
    exact defragBlocks_perm now k p.allocated acc.1 acc.2

theorem foldl_defragStep_perm (now : Int) (ks : List Nat) :
    ∀ (acc : MemState × Nat),
      List.Perm (allIds (ks.foldl (defragStep now) acc).1) (allIds acc.1) := by
  induction ks with
  | nil => intro acc; exact List.Perm.refl _
  | cons k ks ih =>
    intro acc
    rw [List.foldl_cons]
    exact (ih _).trans (defragStep_perm now acc k)

theorem defragment_perm (s : MemState) (now : Int) :
    List.Perm (allIds (defragment_memory s now).1) (allIds s) :=
  foldl_defragStep_perm now _ (s, 0)

theorem gc_perm (s : MemState) (now : Int) :
    List.Perm (allIds (garbage_collect s now).1) (allIds s) := by
  have h1 : List.Perm (allIds (gcScan s now).1) (allIds s) :=
    foldl_gcStep_perm now _ (s, 0)
  cases hd : decide ((gcScan s now).1.memoryPressure > gc_threshold) with
  | false =>
    simp only [garbage_collect, hd, Bool.false_eq_true, if_false]
    exact h1
  | true =>
    simp only [garbage_collect, hd, if_true]
    exact (defragment_perm (gcScan s now).1 now).trans h1

theorem runOp_perm (s : MemState) (op : Op) :
    List.Perm (allIds (runOp s op)) (allIds s) := by
  cases op with
  | info u => exact List.Perm.refl _
  | alloc now size p => exact allocate_perm s now size p
  | dealloc id => exact deallocate_perm s id
  | gc now => exact gc_perm s now
  | defrag now => exact defragment_perm s now

theorem runOps_perm (ops : List Op) :
    ∀ (s : MemState), List.Perm (allIds (runOps s ops)) (allIds s) := by
  induction ops with
  | nil => intro s; exact List.Perm.refl _
  | cons op ops ih =>
    intro s
    rw [runOps, List.foldl_cons]
    exact (ih _).trans (runOp_perm s op)

/-- A free block as the initializer creates them, with an explicit suffix. -/
def mkFreeBlock (sz suffix : Nat) : Block :=
  { id := "block_" ++ toString sz ++ "_" ++ toString suffix
    size := sz
    allocatedAt := none
    lastAccess := none
    priority := none }

/-- An allocated block stamped at time `t`. -/
def mkAllocBlock (sz suffix : Nat) (t : Int) : Block :=
  { id := "block_" ++ toString sz ++ "_" ++ toString suffix
    size := sz
    allocatedAt := some t
    lastAccess := some t
    priority := some "normal" }

/-- A small well-formed registry over the full size-class ladder: each pool
holds one free and one allocated block (allocated at time 0). -/
def smallState : MemState :=
  { pools := pool_sizes.map
      (fun k => (k, ⟨[mkFreeBlock k 1111], [mkAllocBlock k 2222 0], 2, 1⟩))
    history := []
    totalAllocations := 10
    totalDeallocations := 0
    memoryPressure := 0
    currentFragmentation := 5
    lastGcTime := 0 }

/-- C4 counterexample: with an unlucky random stream (every
`random.randint(1000, 9999)` draw returning 1000) the state immediately after
initialization already holds duplicate block ids, so id uniqueness does not
hold at every reachable state. -/
theorem C4_counterexample : ¬ noDupIds (initState (fun _ _ => 1000)) := by
  intro h
  have h2 : ((allIds (initState (fun _ _ => 1000))).take 2).Nodup :=
    List.Nodup.sublist (List.take_sublist 2 _) h
  have h3 : (allIds (initState (fun _ _ => 1000))).take 2
      = ["block_1_1000", "block_1_1000"] := by decide
  rw [h3] at h2
  simp at h2

/-- C4 (amended): no operation ever duplicates a block id — every finite
sequence of allocate, deallocate, garbage-collect, defragment and info calls
started in a state whose block ids are pairwise distinct ends in a state whose
block ids are pairwise distinct.  Initialization alone does not guarantee
distinctness, because the random 4-digit id suffixes can collide within a size
class. -/
theorem C4_unique_ids_preserved (s : MemState) (ops : List Op)
    (h : noDupIds s) : noDupIds (runOps s ops) :=
  List.Perm.nodup (runOps_perm ops s).symm h

/-- C4 witness: a concrete duplicate-free registry stays duplicate-free
through an allocation, a deallocation, a GC cycle and a defragmentation. -/
theorem C4_witness :
    noDupIds (runOps smallState
      [Op.alloc 0 1 "normal", Op.dealloc "block_1_2222", Op.gc 200,
       Op.defrag 200]) :=
  C4_unique_ids_preserved smallState _ (by decide)

/-- A well-formed state exhibiting the defragmentation bug: the allocation
ledger records a 1 KB request, but the block serving it sits in the 4 KB class
and carries `size = 4` (the pool's class, the only size the source ever stores
on a block), while the 1 KB and 2 KB classes have free slots. -/
def defragBugState : MemState :=
  { pools := [
      (1, ⟨[mkFreeBlock 1 1111], [], 1, 0⟩),
      (2, ⟨[mkFreeBlock 2 1111], [], 1, 0⟩),
      (4, ⟨[], [mkAllocBlock 4 2222 0], 1, 1⟩),
      (8, ⟨[mkFreeBlock 8 1111], [], 1, 0⟩),
      (16, ⟨[mkFreeBlock 16 1111], [], 1, 0⟩),
      (32, ⟨[mkFreeBlock 32 1111], [], 1, 0⟩),
      (64, ⟨[mkFreeBlock 64 1111], [], 1, 0⟩),
      (128, ⟨[mkFreeBlock 128 1111], [], 1, 0⟩),
      (256, ⟨[mkFreeBlock 256 1111], [], 1, 0⟩),
      (512, ⟨[mkFreeBlock 512 1111], [], 1, 0⟩)]
    history := [{ blockId := "block_4_2222", size := 1, allocatedAt := 0,
                  priority := "normal" }]
    totalAllocations := 1
    totalDeallocations := 0
    memoryPressure := 8/10
    currentFragmentation := 5
    lastGcTime := 0 }

/-- C6: `_defragment_memory` never migrates any block and always returns 0.
Every block of a reachable state carries its pool's class in `block['size']`
(the requested size is recorded only in the allocation history), so the
migration condition `block['size'] < pool_size * 0.5` compares the class with
half of itself and never holds. -/
theorem C6_defragment_never_migrates (s : MemState) (now : Int)
    (hwf : StateWF s) : defragment_memory s now = (s, 0) :=
  defragment_noop s now hwf

/-- C6 witness: on the concrete under-utilized state the spec's defragmenter
would migrate the 1 KB request out of the 4 KB class, but the code's
defragmentation leaves the state untouched and reports 0 moved blocks. -/
theorem C6_witness : defragment_memory defragBugState 0 = (defragBugState, 0) :=
  C6_defragment_never_migrates defragBugState 0 (by decide)

theorem insertSorted_perm (x : Nat) (l : List Nat) :
    List.Perm (insertSorted x l) (x :: l) := by
  induction l with
  | nil => exact List.Perm.refl _
  | cons y ys ih =>
    by_cases h : x ≤ y
    · rw [insertSorted, if_pos h]
    · rw [insertSorted, if_neg h]
      exact (ih.cons y).trans (List.Perm.swap x y ys)

theorem pySorted_perm (l : List Nat) : List.Perm (pySorted l) l := by
  induction l with
  | nil => exact List.Perm.refl _
  | cons x xs ih =>
    rw [pySorted]
    exact (insertSorted_perm x (pySorted xs)).trans (ih.cons x)

theorem mem_pySorted (x : Nat) (l : List Nat) : x ∈ pySorted l ↔ x ∈ l :=
  (pySorted_perm l).mem_iff

theorem pySorted_of_sorted (l : List Nat) (h : List.Pairwise (· ≤ ·) l) :
    pySorted l = l := by
  induction l with
  | nil => rfl
  | cons x xs ih =>
    obtain ⟨hx, hxs⟩ := List.pairwise_cons.mp h
    rw [pySorted, ih hxs]
    cases xs with
    | nil => rfl
    | cons y ys =>
      rw [insertSorted, if_pos (hx y (List.mem_cons_self _ _))]

theorem bestPoolSize_eq_none_iff (s : MemState) (size : Nat)
    (hnd : (s.pools.map Prod.fst).Nodup) :
    bestPoolSize s size = none ↔
      ∀ kp ∈ s.pools, size ≤ kp.1 → kp.2.available = [] := by
  unfold bestPoolSize
  rw [List.find?_eq_none]
  constructor
  · intro h kp hkp hsz
    have hk : kp.1 ∈ sortedKeys s := by
      unfold sortedKeys
      rw [mem_pySorted]
      exact List.mem_map.mpr ⟨kp, hkp, rfl⟩
    have h1 := h kp.1 hk
    simp only [Bool.and_eq_true, decide_eq_true_eq, not_and] at h1
    have h2 := h1 hsz
    unfold hasFree at h2
    rw [findPool_of_mem_nodup s.pools kp.1 kp.2 hnd hkp] at h2
    simpa using h2
  · intro h k hk
    simp only [Bool.and_eq_true, decide_eq_true_eq, not_and]
    intro hsz
    unfold sortedKeys at hk
    rw [mem_pySorted] at hk
    obtain ⟨kp, hkp, rfl⟩ := List.mem_map.mp hk
    unfold hasFree
    rw [findPool_of_mem_nodup s.pools kp.1 kp.2 hnd hkp]
    simp [h kp hkp hsz]

theorem allocate_memory_snd_none_iff (s : MemState) (now : Int) (size : Nat)
    (priority : String) :
    (allocate_memory s now size priority).2 = none ↔
      bestPoolSize s size = none := by
  constructor
  · intro h
    cases hb : bestPoolSize s size with
    | none => rfl
    | some k =>
      obtain ⟨p, b, hp, hl⟩ := allocate_memory_some_exists s size k hb
      rw [allocate_memory_of_some s now size priority k p b hb hp hl] at h
      simp at h
  · intro h
    rw [allocate_memory_of_none s now size priority h]

/-- C3: `allocate_memory` fails (returns `None`) exactly when every size class
at least as large as the request has an empty free list, and a failed
allocation leaves the whole state — pools, blocks, ledger and counters —
unchanged. -/
theorem C3_out_of_memory (s : MemState) (now : Int) (size : Nat)
    (priority : String) (hnd : (s.pools.map Prod.fst).Nodup) :
    ((allocate_memory s now size priority).2 = none ↔
      ∀ kp ∈ s.pools, size ≤ kp.1 → kp.2.available = []) ∧
    ((allocate_memory s now size priority).2 = none →
      (allocate_memory s now size priority).1 = s) := by
  constructor
  · rw [allocate_memory_snd_none_iff]
    exact bestPoolSize_eq_none_iff s size hnd
  · intro h
    rw [allocate_memory_of_none s now size priority
      ((allocate_memory_snd_none_iff s now size priority).mp h)]

/-- C3 witness: a 1000 KB request exceeds every class of the ladder, so it
fails and leaves the concrete state untouched. -/
theorem C3_witness :
    (allocate_memory smallState 0 1000 "normal").2 = none ∧
    (allocate_memory smallState 0 1000 "normal").1 = smallState := by
  have h := C3_out_of_memory smallState 0 1000 "normal" (by decide)
  have h1 : (allocate_memory smallState 0 1000 "normal").2 = none :=
    h.1.mpr (by decide)
  exact ⟨h1, h.2 h1⟩

/-- The spec's concrete scenario configuration: classes 1, 2 and 4 KB with
capacity 2 each, all blocks free. -/
def scenarioState : MemState :=
  { pools := [
      (1, ⟨[mkFreeBlock 1 7001, mkFreeBlock 1 7002], [], 2, 0⟩),
      (2, ⟨[mkFreeBlock 2 7001, mkFreeBlock 2 7002], [], 2, 0⟩),
      (4, ⟨[mkFreeBlock 4 7001, mkFreeBlock 4 7002], [], 2, 0⟩)]
    history := []
    totalAllocations := 0
    totalDeallocations := 0
    memoryPressure := 0
    currentFragmentation := 0
    lastGcTime := 0 }

/-- State after the first scenario allocation. -/
def scenario1 : MemState := (allocate_memory scenarioState 0 1 "normal").1

/-- State after the second scenario allocation. -/
def scenario2 : MemState := (allocate_memory scenario1 1 1 "normal").1

/-- C2: `allocate_memory` picks the smallest size class that fits the request
and has a free block: on success there is a class `k` holding the returned
block with `size ≤ k`, the returned id is the id of the last free block of
that class, and every strictly smaller fitting class has an empty free list.
In the spec's concrete scenario (classes 1, 2, 4 KB of capacity 2), two 1 KB
allocations exhaust the 1 KB class and a third 1 KB allocation succeeds from
the 2 KB class with a fresh id instead of failing. -/
theorem C2_smallest_fitting_class :
    (∀ (s : MemState) (now : Int) (size : Nat) (priority : String) (id : String),
      List.Pairwise (· < ·) (s.pools.map Prod.fst) →
      (allocate_memory s now size priority).2 = some id →
      ∃ k p b, findPool s.pools k = some p ∧ size ≤ k ∧
        p.available.getLast? = some b ∧ b.id = id ∧
        ∀ kp ∈ s.pools, kp.1 < k → size ≤ kp.1 → kp.2.available = []) ∧
    ((allocate_memory scenarioState 0 1 "normal").2 = some "block_1_7002" ∧
     (allocate_memory scenario1 1 1 "normal").2 = some "block_1_7001" ∧
     (allocate_memory scenario2 2 1 "normal").2 = some "block_2_7002" ∧
     (∃ p, findPool scenarioState.pools 2 = some p ∧
        ∃ b ∈ p.available, b.id = "block_2_7002") ∧
     "block_2_7002" ≠ "block_1_7002" ∧ "block_2_7002" ≠ "block_1_7001") := by
  constructor
  · intro s now size priority id hsorted halloc
    have hnd : (s.pools.map Prod.fst).Nodup :=
      hsorted.imp (fun hab => ne_of_lt hab)
    cases hb : bestPoolSize s size with
    | none =>
      rw [allocate_memory_of_none s now size priority hb] at halloc
      simp at halloc
    | some k =>
      obtain ⟨p, b, hp, hl⟩ := allocate_memory_some_exists s size k hb
      rw [allocate_memory_of_some s now size priority k p b hb hp hl] at halloc
      simp only [Option.some.injEq] at halloc
      obtain ⟨hk, -, -⟩ := bestPoolSize_spec s size k hb
      refine ⟨k, p, b, hp, hk, hl, halloc, ?_⟩
      intro kp hkp hlt hsz
      have hsortEq : sortedKeys s = s.pools.map Prod.fst := by
        unfold sortedKeys
        exact pySorted_of_sorted _ (hsorted.imp (fun hab => le_of_lt hab))
      unfold bestPoolSize at hb
      rw [List.find?_eq_some] at hb
      obtain ⟨hpred, ks1, ks2, hsplit, hfail⟩ := hb
      have hmemkeys : kp.1 ∈ sortedKeys s := by
        rw [hsortEq]
        exact List.mem_map.mpr ⟨kp, hkp, rfl⟩
      have hmem1 : kp.1 ∈ ks1 := by
        rw [hsplit] at hmemkeys
        rcases List.mem_append.mp hmemkeys with h1 | h1
        · exact h1
        · rcases List.mem_cons.mp h1 with rfl | h1
          · exact absurd hlt (lt_irrefl _)
          · exfalso
            have hsorted2 : List.Pairwise (· < ·) (ks1 ++ k :: ks2) := by
              rw [← hsplit, hsortEq]
              exact hsorted
            have :=
              (List.pairwise_cons.mp (List.pairwise_append.mp hsorted2).2.1).1
                kp.1 h1
            omega
      have hf := hfail kp.1 hmem1
      simp only [Bool.and_eq_true, decide_eq_true_eq, Bool.not_eq_eq_eq_not,
        Bool.not_true, Bool.and_eq_false_iff] at hf
      rcases hf with hf | hf
      · exact absurd hsz (by simpa using hf)
      · unfold hasFree at hf
        rw [findPool_of_mem_nodup s.pools kp.1 kp.2 hnd hkp] at hf
        simpa using hf
  · refine ⟨by decide, by decide, by decide, ?_, by decide, by decide⟩
    exact ⟨_, rfl, by decide⟩

/-- C2 witness: on the concrete ladder state a 3 KB request is served from the
4 KB class, every smaller fitting class being exhausted. -/
theorem C2_witness :
    ∃ k p b, findPool smallState.pools k = some p ∧ 3 ≤ k ∧
      p.available.getLast? = some b ∧ b.id = "block_4_1111" ∧
      ∀ kp ∈ smallState.pools, kp.1 < k → 3 ≤ kp.1 → kp.2.available = [] :=
  C2_smallest_fitting_class.1 smallState 0 3 "normal" "block_4_1111"
    (by decide) (by decide)

/-- The number of allocated blocks carrying a given id, over all pools. -/
def countAllocatedId (s : MemState) (id : String) : Nat :=
  (s.pools.map (fun kp => kp.2.allocated.countP (fun b => decide (b.id = id)))).sum

theorem deallocate_memory_snd_true_iff (s : MemState) (id : String) :
    (deallocate_memory s id).2 = true ↔
      ∃ kp ∈ s.pools, ∃ b ∈ kp.2.allocated, b.id = id := by
  cases h : deallocPools s.pools id with
  | none =>
    rw [deallocate_memory_of_none s id h]
    simp only [Bool.false_eq_true, false_iff]
    rintro ⟨kp, hkp, b, hb, hbid⟩
    exact (deallocPools_eq_none s.pools id).mp h kp hkp b hb hbid
  | some ps' =>
    rw [deallocate_memory_of_some s id ps' h]
    simp only [true_iff]
    obtain ⟨pre, k, p, p', post, hps, -, hdp, -⟩ :=
      deallocPools_eq_some s.pools ps' id h
    obtain ⟨b, bpre, bpost, hal, hbid, -, -⟩ := deallocInPool_eq_some p p' id hdp
    refine ⟨(k, p), ?_, b, ?_, hbid⟩
    · rw [hps]; exact List.mem_append_right _ (List.mem_cons_self _ _)
    · rw [hal]; exact List.mem_append_right _ (List.mem_cons_self _ _)

theorem deallocate_memory_false_unchanged (s : MemState) (id : String)
    (h : (deallocate_memory s id).2 = false) : (deallocate_memory s id).1 = s := by
  cases hd : deallocPools s.pools id with
  | none => rw [deallocate_memory_of_none s id hd]
  | some ps' => rw [deallocate_memory_of_some s id ps' hd] at h; simp at h

theorem deallocate_memory_true_spec (s : MemState) (id : String)
    (h : (deallocate_memory s id).2 = true) :
    ∃ pre k p bpre b bpost post,
      s.pools = pre ++ (k, p) :: post ∧ p.allocated = bpre ++ b :: bpost ∧
      b.id = id ∧ (∀ kp ∈ pre, ∀ x ∈ kp.2.allocated, x.id ≠ id) ∧
      (∀ x ∈ bpre, x.id ≠ id) ∧
      (deallocate_memory s id).1 =
        { s with
            pools := pre ++ (k,
              { p with available := p.available ++ [clearBlock b]
                       allocated := bpre ++ bpost
                       usedBlocks := p.usedBlocks - 1 }) :: post
            totalDeallocations := s.totalDeallocations + 1 } := by
  cases hd : deallocPools s.pools id with
  | none => rw [deallocate_memory_of_none s id hd] at h; simp at h
  | some ps' =>
    obtain ⟨pre, k, p, p', post, hps, hps', hdp, hpre⟩ :=
      deallocPools_eq_some s.pools ps' id hd
    obtain ⟨b, bpre, bpost, hal, hbid, hbpre, hp'⟩ := deallocInPool_eq_some p p' id hdp
    refine ⟨pre, k, p, bpre, b, bpost, post, hps, hal, hbid, hpre, hbpre, ?_⟩
    rw [deallocate_memory_of_some s id ps' hd, hps', hp']

theorem countSum_eq_zero_iff (ps : List (Nat × Pool)) (id : String) :
    (ps.map (fun kp => kp.2.allocated.countP (fun b => decide (b.id = id)))).sum
        = 0 ↔
      ∀ kp ∈ ps, ∀ b ∈ kp.2.allocated, b.id ≠ id := by
  induction ps with
  | nil => simp
  | cons a as ih =>
    rw [List.map_cons, List.sum_cons, Nat.add_eq_zero, List.countP_eq_zero, ih]
    simp only [decide_eq_true_eq]
    constructor
    · rintro ⟨h1, h2⟩ kp hkp b hb
      rcases List.mem_cons.mp hkp with rfl | hkp'
      · exact h1 b hb
      · exact h2 kp hkp' b hb
    · intro h
      exact ⟨h a (List.mem_cons_self _ _),
        fun kp hkp b hb => h kp (List.mem_cons_of_mem _ hkp) b hb⟩

theorem countAllocatedId_eq_zero_iff (s : MemState) (id : String) :
    countAllocatedId s id = 0 ↔
      ∀ kp ∈ s.pools, ∀ b ∈ kp.2.allocated, b.id ≠ id :=
  countSum_eq_zero_iff s.pools id

theorem deallocate_twice (s : MemState) (id : String)
    (hcount : countAllocatedId s id = 1) :
    (deallocate_memory s id).2 = true ∧
    (deallocate_memory (deallocate_memory s id).1 id).2 = false := by
  have h1 : (deallocate_memory s id).2 = true := by
    cases hb2 : (deallocate_memory s id).2 with
    | true => rfl
    | false =>
      exfalso
      have hno : ∀ kp ∈ s.pools, ∀ b ∈ kp.2.allocated, b.id ≠ id := by
        intro kp hkp b hb hbid
        have hex : (deallocate_memory s id).2 = true :=
          (deallocate_memory_snd_true_iff s id).mpr ⟨kp, hkp, b, hb, hbid⟩
        rw [hb2] at hex
        cases hex
      have hz := (countAllocatedId_eq_zero_iff s id).mpr hno
      omega
  refine ⟨h1, ?_⟩
  obtain ⟨pre, k, p, bpre, b, bpost, post, hps, hal, hbid, hpreno, hbpreno, hs'⟩ :=
    deallocate_memory_true_spec s id h1
  have hdecomp : countAllocatedId s id =
      (pre.map (fun kp => kp.2.allocated.countP (fun x => decide (x.id = id)))).sum
      + (bpre.countP (fun x => decide (x.id = id))
         + (bpost.countP (fun x => decide (x.id = id)) + 1))
      + (post.map (fun kp => kp.2.allocated.countP (fun x => decide (x.id = id)))).sum := by
    unfold countAllocatedId
    rw [hps]
    simp only [List.map_append, List.sum_append, List.map_cons, List.sum_cons]
    rw [hal]
    rw [List.countP_append, List.countP_cons]
    simp only [hbid, decide_True, if_true]
    omega
  rw [hdecomp] at hcount
  have hpre0 :
      (pre.map (fun kp => kp.2.allocated.countP (fun x => decide (x.id = id)))).sum
        = 0 := by omega
  have hpost0 :
      (post.map (fun kp => kp.2.allocated.countP (fun x => decide (x.id = id)))).sum
        = 0 := by omega
  have hbpre0 : bpre.countP (fun x => decide (x.id = id)) = 0 := by omega
  have hbpost0 : bpost.countP (fun x => decide (x.id = id)) = 0 := by omega
  have hbpostno : ∀ x ∈ bpost, x.id ≠ id := by
    intro x hx
    have := List.countP_eq_zero.mp hbpost0 x hx
    simpa using this
  have hpostno : ∀ kp ∈ post, ∀ x ∈ kp.2.allocated, x.id ≠ id :=
    (countSum_eq_zero_iff post id).mp hpost0
  have hnone : deallocPools (deallocate_memory s id).1.pools id = none := by
    apply (deallocPools_eq_none _ id).mpr
    rw [hs']
    intro kp hkp
    simp only at hkp
    rcases List.mem_append.mp hkp with hx | hx
    · exact hpreno kp hx
    · rcases List.mem_cons.mp hx with rfl | hx'
      · intro x hxmem
        simp only at hxmem
        rcases List.mem_append.mp hxmem with hx2 | hx2
        · exact hbpreno x hx2
        · exact hbpostno x hx2
      · exact hpostno kp hx'
  rw [deallocate_memory_of_none _ id hnone]

/-- C7: `deallocate_memory` returns true exactly when some pool's allocated
list holds a block with the id; on success the first such block is cleared and
moved to its own pool's free list and `total_deallocations` is incremented; on
failure the state is unchanged; and when the id is held by exactly one
allocated block, deallocating twice returns true and then false. -/
theorem C7_deallocate_semantics (s : MemState) (id : String) :
    ((deallocate_memory s id).2 = true ↔
      ∃ kp ∈ s.pools, ∃ b ∈ kp.2.allocated, b.id = id) ∧
    ((deallocate_memory s id).2 = false → (deallocate_memory s id).1 = s) ∧
    ((deallocate_memory s id).2 = true →
      ∃ pre k p bpre b bpost post,
        s.pools = pre ++ (k, p) :: post ∧ p.allocated = bpre ++ b :: bpost ∧
        b.id = id ∧
        (deallocate_memory s id).1 =
          { s with
              pools := pre ++ (k,
                { p with available := p.available ++ [clearBlock b]
                         allocated := bpre ++ bpost
                         usedBlocks := p.usedBlocks - 1 }) :: post
              totalDeallocations := s.totalDeallocations + 1 }) ∧
    (countAllocatedId s id = 1 →
      (deallocate_memory s id).2 = true ∧
      (deallocate_memory (deallocate_memory s id).1 id).2 = false) := by
  refine ⟨deallocate_memory_snd_true_iff s id,
    deallocate_memory_false_unchanged s id, ?_, deallocate_twice s id⟩
  intro h
  obtain ⟨pre, k, p, bpre, b, bpost, post, hps, hal, hbid, -, -, hs'⟩ :=
    deallocate_memory_true_spec s id h
  exact ⟨pre, k, p, bpre, b, bpost, post, hps, hal, hbid, hs'⟩

/-- C7 witness: on the concrete ladder state the only allocated 1 KB block is
freed on the first call and the second call reports false. -/
theorem C7_witness :
    (deallocate_memory smallState "block_1_2222").2 = true ∧
    (deallocate_memory (deallocate_memory smallState "block_1_2222").1
      "block_1_2222").2 = false :=
  (C7_deallocate_semantics smallState "block_1_2222").2.2.2 (by decide)

/-- C8 counterexample: after a pressure recomputation with the telemetry draw
`used_mb = 5` the stored pressure is 5/16, while the stepped clamp of the
pools' allocated/capacity ratio — 0 on a freshly initialized registry — is 0:
the stored pressure does not track the pools' ratio the claim names. -/
theorem C8_counterexample :
    (get_memory_info (initState (fun _ _ => 4321)) 5).memoryPressure ≠
      steppedPressure
        (specPoolsRatio (get_memory_info (initState (fun _ _ => 4321)) 5)) := by
  have h1 : (get_memory_info (initState (fun _ _ => 4321)) 5).memoryPressure
      = 5/16 := by
    show steppedPressure ((5 : ℚ) / 16) = 5/16
    unfold steppedPressure
    rw [if_neg (by norm_num), if_neg (by norm_num)]
  have h2 : specPoolsRatio (get_memory_info (initState (fun _ _ => 4321)) 5)
      = 0 := by
    have hpools : (get_memory_info (initState (fun _ _ => 4321)) 5).pools
        = (initState (fun _ _ => 4321)).pools := rfl
    unfold specPoolsRatio
    rw [hpools]
    norm_num [initState, initPool, pool_sizes]
  rw [h1, h2]
  have h3 : steppedPressure 0 = 0 := by
    unfold steppedPressure
    rw [if_neg (by norm_num), if_neg (by norm_num)]
  rw [h3]
  norm_num

/-- C8 (amended): every pressure recomputation stores the stepped clamp of
`used_mb / total_mb` where `used_mb` is the randomized telemetry value and
`total_mb = 16`: 0.9 when the ratio exceeds 0.9, 0.7 when it lies in
(0.7, 0.9], the raw ratio otherwise — and for the actual telemetry range
4..8 MB the raw ratio is always what is stored. -/
theorem C8_stepped_pressure (s : MemState) (u : Nat) :
    (((u : ℚ) / 16 > 9/10) → (get_memory_info s u).memoryPressure = 9/10) ∧
    ((7/10 < (u : ℚ) / 16 ∧ (u : ℚ) / 16 ≤ 9/10) →
      (get_memory_info s u).memoryPressure = 7/10) ∧
    (((u : ℚ) / 16 ≤ 7/10) →
      (get_memory_info s u).memoryPressure = (u : ℚ) / 16) ∧
    (4 ≤ u → u ≤ 8 → (get_memory_info s u).memoryPressure = (u : ℚ) / 16) := by
  refine ⟨?_, ?_, ?_, ?_⟩
  · intro h
    show steppedPressure ((u : ℚ) / 16) = 9/10
    unfold steppedPressure
    rw [if_pos h]
  · rintro ⟨h1, h2⟩
    show steppedPressure ((u : ℚ) / 16) = 7/10
    unfold steppedPressure
    rw [if_neg (by linarith), if_pos h1]
  · intro h
    show steppedPressure ((u : ℚ) / 16) = (u : ℚ) / 16
    unfold steppedPressure
    rw [if_neg (by linarith), if_neg (by linarith)]
  · intro h4 h8
    have hu : ((u : ℚ)) ≤ 8 := by exact_mod_cast h8
    show steppedPressure ((u : ℚ) / 16) = (u : ℚ) / 16
    unfold steppedPressure
    rw [if_neg (by linarith), if_neg (by linarith)]

/-- C8 witness: the telemetry draw 6 MB yields a stored pressure of exactly
6/16. -/
theorem C8_witness :
    (get_memory_info smallState 6).memoryPressure = (6 : ℚ) / 16 :=
  (C8_stepped_pressure smallState 6).2.2.2 (by norm_num) (by norm_num)

/-- A state whose allocation ledger holds exactly three records. -/
def threeEntryState : MemState :=
  { pools := []
    history := [⟨"a", 1, 0, "normal"⟩, ⟨"b", 2, 1, "normal"⟩,
                ⟨"c", 3, 2, "low"⟩]
    totalAllocations := 3
    totalDeallocations := 0
    memoryPressure := 0
    currentFragmentation := 5
    lastGcTime := 0 }

/-- C9 counterexample: with only three ledger entries `get_memory_analytics`
returns a complete normal report — histogram, zero prediction, trend,
efficiency and recommendation — rather than failing with InsufficientData;
the source has no failure path at all. -/
theorem C9_counterexample :
    threeEntryState.history.length = 3 ∧
    (get_memory_analytics threeEntryState).allocationPatterns
      = [("0-1024KB", 3)] ∧
    (get_memory_analytics threeEntryState).predictedUsage = 0 ∧
    (get_memory_analytics threeEntryState).fragmentationTrend = "Stable" ∧
    (get_memory_analytics threeEntryState).memoryEfficiency = 95 ∧
    (get_memory_analytics threeEntryState).gcRecommendation = "OK" := by
  refine ⟨rfl, by decide, rfl, ?_, ?_, ?_⟩
  · show (if (5 : ℚ) < 15 then "Stable" else "Increasing") = "Stable"
    rw [if_pos (by norm_num)]
  · show (100 : ℚ) - 5 = 95
    norm_num
  · show (if (0 : ℚ) > 7/10 then "Run GC" else "OK") = "OK"
    rw [if_neg (by norm_num)]

/-- C9 (amended): analytics never fails; it degrades instead: the predicted
usage is 0 whenever the ledger holds at most 10 records, is the scaled mean of
the last 10 requested sizes when it holds more, and vanishes exactly when the
ledger is short or those sizes sum to 0. -/
theorem C9_prediction_threshold (s : MemState) :
    (s.history.length ≤ 10 → (get_memory_analytics s).predictedUsage = 0) ∧
    (10 < s.history.length →
      (get_memory_analytics s).predictedUsage =
        ((lastN 10 s.history).map (fun r => (r.size : ℚ))).sum / 10 * (12/10)) ∧
    ((get_memory_analytics s).predictedUsage = 0 ↔
      (s.history.length ≤ 10 ∨
        ((lastN 10 s.history).map (fun r => (r.size : ℚ))).sum = 0)) := by
  have hpred : (get_memory_analytics s).predictedUsage =
      if s.history.length > 10 then
        ((lastN 10 s.history).map (fun r => (r.size : ℚ))).sum / 10 * (12/10)
      else 0 := rfl
  refine ⟨?_, ?_, ?_⟩
  · intro h
    rw [hpred, if_neg (by omega)]
  · intro h
    rw [hpred, if_pos h]
  · rw [hpred]
    by_cases h : s.history.length > 10
    · rw [if_pos h]
      have h10 : ¬ s.history.length ≤ 10 := by omega
      simp only [h10, false_or]
      constructor
      · intro hz
        rcases mul_eq_zero.mp hz with hz1 | hz2
        · have := div_eq_zero_iff.mp hz1
          rcases this with hz3 | hz3
          · exact hz3
          · norm_num at hz3
        · norm_num at hz2
      · intro hz
        rw [hz]
        norm_num
    · rw [if_neg h]
      simp only [eq_self_iff_true, true_iff]
      left
      omega

/-- C9 witness: the three-entry ledger yields a report whose prediction is
0. -/
theorem C9_witness : (get_memory_analytics threeEntryState).predictedUsage = 0 :=
  (C9_prediction_threshold threeEntryState).1 (by decide)

/-- All ids of a pool list (the flattening `allIds` performs). -/
def poolsIds (ps : List (Nat × Pool)) : List String :=
  (ps.map (fun kp => poolIds kp.2)).flatten

theorem allIds_eq_poolsIds (s : MemState) : allIds s = poolsIds s.pools := rfl

theorem nodup_middle_facts {α : Type} (X : List α) (a : α) (Y : List α)
    (h : (X ++ a :: Y).Nodup) : (∀ x ∈ X, x ≠ a) ∧ a ∉ Y := by
  rw [List.nodup_append] at h
  obtain ⟨h1, h2, h3⟩ := h
  refine ⟨?_, (List.nodup_cons.mp h2).1⟩
  intro x hx hxa
  exact h3 hx (by rw [hxa]; exact List.mem_cons_self _ _)

theorem mem_poolsIds_of_allocated (ps : List (Nat × Pool)) (kp : Nat × Pool)
    (x : Block) (hkp : kp ∈ ps) (hx : x ∈ kp.2.allocated) :
    x.id ∈ poolsIds ps := by
  unfold poolsIds
  rw [List.mem_flatten]
  refine ⟨poolIds kp.2, List.mem_map.mpr ⟨kp, hkp, rfl⟩, ?_⟩
  unfold poolIds
  exact List.mem_append_right _ (List.mem_map.mpr ⟨x, hx, rfl⟩)

theorem gcBlocks_spec (now : Int) (k : Nat) :
    ∀ (bs kept : List Block) (c : Nat) (pre post : List (Nat × Pool))
      (av : List Block) (tb ub : Int) (s : MemState),
      s.pools = pre ++ (k, ⟨av, kept ++ bs, tb, ub⟩) :: post →
      noDupIds s →
      gcBlocks now k s bs c =
        ({ s with
            pools := pre ++ (k,
              ⟨av ++ (bs.filter (blockExpired now k)).map clearBlock,
               kept ++ bs.filter (fun b => !(blockExpired now k b)), tb,
               ub - (bs.filter (blockExpired now k)).length⟩) :: post
            totalDeallocations :=
              s.totalDeallocations + (bs.filter (blockExpired now k)).length },
         c + (bs.filter (blockExpired now k)).length)
  | [], kept, c, pre, post, av, tb, ub, s => by
    intro hpools _
    rw [List.append_nil] at hpools
    simp only [List.filter_nil, List.map_nil, List.append_nil, List.length_nil,
      Nat.cast_zero, Int.sub_zero, Nat.add_zero, add_zero]
    rw [gcBlocks]
    rw [← hpools]
  | b :: bs', kept, c, pre, post, av, tb, ub, s => by
    intro hpools hnd
    cases he : blockExpired now k b with
    | false =>
      rw [gcBlocks, if_neg (by simp [he])]
      have hpools' : s.pools = pre ++ (k, ⟨av, (kept ++ [b]) ++ bs', tb, ub⟩) :: post := by
        rw [hpools]
        simp [List.append_assoc]
      rw [gcBlocks_spec now k bs' (kept ++ [b]) c pre post av tb ub s hpools' hnd]
      simp only [List.filter_cons, he, Bool.false_eq_true, if_false,
        Bool.not_false, if_true, List.append_assoc, List.singleton_append]
    | true =>
      rw [gcBlocks, if_pos (by simp [he])]
      have hL : allIds s =
          (poolsIds pre ++ (av.map Block.id ++ kept.map Block.id)) ++
            (b.id :: (bs'.map Block.id ++ poolsIds post)) := by
        rw [allIds_eq_poolsIds, hpools]
        unfold poolsIds poolIds
        simp [List.map_append, List.flatten_append, List.map_cons,
          List.flatten_cons, List.append_assoc]
      have hfacts := nodup_middle_facts _ _ _ (by rw [← hL]; exact hnd)
      have hkept : ∀ x ∈ kept, x.id ≠ b.id := by
        intro x hx
        exact hfacts.1 x.id (List.mem_append_right _ (List.mem_append_right _
          (List.mem_map.mpr ⟨x, hx, rfl⟩)))
      have hpreno : ∀ kp ∈ pre, ∀ x ∈ kp.2.allocated, x.id ≠ b.id := by
        intro kp hkp x hx
        exact hfacts.1 x.id (List.mem_append_left _
          (mem_poolsIds_of_allocated pre kp x hkp hx))
      have hdp : deallocInPool ⟨av, kept ++ b :: bs', tb, ub⟩ b.id =
          some ⟨av ++ [clearBlock b], kept ++ bs', tb, ub - 1⟩ := by
        unfold deallocInPool
        rw [removeFirstById_append b.id kept b bs' hkept rfl]
      have hdpools : deallocPools s.pools b.id =
          some (pre ++ (k, ⟨av ++ [clearBlock b], kept ++ bs', tb, ub - 1⟩) :: post) := by
        rw [hpools]
        exact deallocPools_append pre post k _ _ b.id hpreno hdp
      have hr := deallocate_memory_of_some s b.id _ hdpools
      have hnd' : noDupIds (deallocate_memory s b.id).1 :=
        List.Perm.nodup (deallocate_perm s b.id).symm hnd
      rw [hr] at hnd'
      simp only [hr, if_true]
      rw [gcBlocks_spec now k bs' kept (c + 1) pre post (av ++ [clearBlock b])
        tb (ub - 1) _ rfl hnd']
      simp only [List.filter_cons, he, if_true, Bool.not_true,
        Bool.false_eq_true, if_false, List.map_cons, List.length_cons,
        List.append_assoc, List.singleton_append]
      have harith1 : ub - 1 - ((bs'.filter (blockExpired now k)).length : Int)
          = ub - (((bs'.filter (blockExpired now k)).length + 1 : Nat) : Int) := by
        push_cast
        ring
      have harith2 : s.totalDeallocations + 1
            + ((bs'.filter (blockExpired now k)).length : Int)
          = s.totalDeallocations
            + (((bs'.filter (blockExpired now k)).length + 1 : Nat) : Int) := by
        push_cast
        ring
      have harith3 : c + 1 + (bs'.filter (blockExpired now k)).length
          = c + ((bs'.filter (blockExpired now k)).length + 1) := by omega
      rw [harith1, harith2, harith3]

/-- The effect of one GC pass on one pool of class `k`: expired blocks move
(cleared) to the free list, the rest stay, `used_blocks` drops accordingly. -/
def gcPoolTransformP (now : Int) (k : Nat) (p : Pool) : Pool :=
  ⟨p.available ++ ((p.allocated.filter (blockExpired now k)).map clearBlock),
   p.allocated.filter (fun b => !(blockExpired now k b)),
   p.totalBlocks,
   p.usedBlocks - (p.allocated.filter (blockExpired now k)).length⟩

/-- The same transform on a keyed pool entry. -/
def gcPoolTransform (now : Int) (kp : Nat × Pool) : Nat × Pool :=
  (kp.1, gcPoolTransformP now kp.1 kp.2)

/-- The number of blocks one GC pass reclaims from one pool. -/
def gcPoolCount (now : Int) (kp : Nat × Pool) : Nat :=
  (kp.2.allocated.filter (blockExpired now kp.1)).length

theorem gcFold_spec (now : Int) :
    ∀ (todo done : List (Nat × Pool)) (c : Nat) (s : MemState),
      s.pools = done ++ todo →
      ((done ++ todo).map Prod.fst).Nodup →
      noDupIds s →
      (todo.map Prod.fst).foldl (gcStep now) (s, c) =
        ({ s with
            pools := done ++ todo.map (gcPoolTransform now)
            totalDeallocations := s.totalDeallocations
              + ((todo.map (gcPoolCount now)).sum : Int) },
         c + (todo.map (gcPoolCount now)).sum)
  | [], done, c, s => by
    intro hpools _ _
    rw [List.append_nil] at hpools
    simp only [List.map_nil, List.foldl_nil, List.sum_nil, Nat.cast_zero,
      add_zero, Nat.add_zero, List.append_nil]
    rw [← hpools]
  | (k, p) :: rest, done, c, s => by
    intro hpools hkeys hnd
    obtain ⟨av, al, tb, ub⟩ := p
    have hkeys' : (done.map Prod.fst ++ k :: rest.map Prod.fst).Nodup := by
      simpa using hkeys
    have hknotin : k ∉ done.map Prod.fst := by
      intro hmem
      exact (nodup_middle_facts _ _ _ hkeys').1 k hmem rfl
    have hfind : findPool s.pools k = some ⟨av, al, tb, ub⟩ := by
      rw [hpools, findPool_append_of_not_mem done _ k hknotin, findPool_cons_self]
    rw [List.map_cons, List.foldl_cons]
    have hstep : gcStep now (s, c) k = gcBlocks now k s al c := by
      simp only [gcStep, hfind]
    rw [hstep]
    have hpools0 : s.pools = done ++ (k, ⟨av, [] ++ al, tb, ub⟩) :: rest := by
      rw [hpools]; rfl
    rw [gcBlocks_spec now k al [] c done rest av tb ub s hpools0 hnd]
    have hnd1 : noDupIds ({ s with
        pools := done ++ (k,
          ⟨av ++ ((al.filter (blockExpired now k)).map clearBlock),
           [] ++ al.filter (fun b => !(blockExpired now k b)), tb,
           ub - (al.filter (blockExpired now k)).length⟩) :: rest
        totalDeallocations := s.totalDeallocations
          + (al.filter (blockExpired now k)).length } : MemState) := by
      have hperm := gcBlocks_perm now k al s c
      rw [gcBlocks_spec now k al [] c done rest av tb ub s hpools0 hnd] at hperm
      exact List.Perm.nodup hperm.symm hnd
    have hrec := gcFold_spec now rest (done ++ [gcPoolTransform now (k, ⟨av, al, tb, ub⟩)])
      (c + (al.filter (blockExpired now k)).length)
      ({ s with
          pools := done ++ (k,
            ⟨av ++ ((al.filter (blockExpired now k)).map clearBlock),
             [] ++ al.filter (fun b => !(blockExpired now k b)), tb,
             ub - (al.filter (blockExpired now k)).length⟩) :: rest
          totalDeallocations := s.totalDeallocations
            + (al.filter (blockExpired now k)).length })
      (by simp [gcPoolTransform, gcPoolTransformP, List.append_assoc])
      (by simpa [gcPoolTransform] using hkeys)
      hnd1
    rw [hrec]
    refine Prod.ext ?_ ?_
    · simp only [MemState.mk.injEq, and_true, true_and]
      refine ⟨?_, ?_⟩
      · simp [gcPoolTransform, gcPoolTransformP, List.append_assoc]
      · simp only [List.map_cons, List.sum_cons, gcPoolCount]
        push_cast
        ring
    · simp only [List.map_cons, List.sum_cons, gcPoolCount]
      omega

theorem gcScan_spec (s : MemState) (now : Int) (hnd : noDupIds s)
    (hk : (s.pools.map Prod.fst).Nodup) :
    gcScan s now =
      ({ s with
          pools := s.pools.map (gcPoolTransform now)
          totalDeallocations := s.totalDeallocations
            + ((s.pools.map (gcPoolCount now)).sum : Int) },
       (s.pools.map (gcPoolCount now)).sum) := by
  have h := gcFold_spec now s.pools [] 0 s rfl (by simpa using hk) hnd
  unfold gcScan
  rw [h]
  simp

theorem findPool_map_gc (now : Int) (ps : List (Nat × Pool)) (k : Nat) (p : Pool)
    (h : findPool ps k = some p) :
    findPool (ps.map (gcPoolTransform now)) k =
      some (gcPoolTransformP now k p) := by
  induction ps with
  | nil => simp [findPool] at h
  | cons a as ih =>
    obtain ⟨k', p'⟩ := a
    rw [List.map_cons]
    show findPool ((k', gcPoolTransformP now k' p') :: as.map (gcPoolTransform now))
      k = _
    by_cases hk : k' = k
    · subst hk
      rw [findPool, if_pos rfl] at h
      obtain rfl : p' = p := by simpa using h
      rw [findPool_cons_self]
    · rw [findPool, if_neg hk] at h
      rw [findPool, if_neg hk]
      exact ih h

theorem blockExpired_eq_idle (now : Int) (k : Nat) (hk : k ≤ 512) (b : Block) :
    blockExpired now k b = idleExpired now b := by
  unfold blockExpired idleExpired timeoutFor
  rw [if_pos hk]

theorem mem_pool_sizes_le (k : Nat) (hk : k ∈ pool_sizes) : k ≤ 512 := by
  have h : ∀ x ∈ pool_sizes, x ≤ 512 := by decide
  exact h k hk

/-- C5 counterexample: the claimed two-tier idle-timeout policy — some smaller
class using a strictly shorter timeout than some larger class — does not hold
on the actual ladder: every class is at most 512 KB, so the
`180 if pool_size <= 512 else 300` rule gives every class the same 180 second
timeout. -/
theorem C5_counterexample :
    ¬ ∃ k1 ∈ pool_sizes, ∃ k2 ∈ pool_sizes,
      k1 < k2 ∧ timeoutFor k1 < timeoutFor k2 := by
  decide

/-- C5 (amended): a garbage-collection cycle on a well-formed, duplicate-free
state frees exactly the allocated blocks idle for strictly more than 180
seconds — the single effective timeout of every class — retains the rest in
order, returns each freed block (cleared) to its own pool's free list, and
reports as `collected_blocks` the total number of blocks so reclaimed. -/
theorem C5_gc_idle_reclaim (s : MemState) (now : Int) (hwf : StateWF s)
    (hnd : noDupIds s) :
    (∀ k p, findPool s.pools k = some p →
      findPool (garbage_collect s now).1.pools k = some
        { available := p.available
            ++ ((p.allocated.filter (idleExpired now)).map clearBlock)
          allocated := p.allocated.filter (fun b => !(idleExpired now b))
          totalBlocks := p.totalBlocks
          usedBlocks := p.usedBlocks
            - (p.allocated.filter (idleExpired now)).length }) ∧
    (garbage_collect s now).2.collectedBlocks =
      ((s.pools.map
        (fun kp => (kp.2.allocated.filter (idleExpired now)).length)).sum) := by
  have hk : (s.pools.map Prod.fst).Nodup := by
    rw [hwf.1]; decide
  have hscan := gcScan_spec s now hnd hk
  have hS1wf : StateWF (gcScan s now).1 := gcScan_StateWF s now hwf
  have hpools1 : (garbage_collect s now).1.pools = (gcScan s now).1.pools := by
    cases hd : decide ((gcScan s now).1.memoryPressure > gc_threshold) with
    | false =>
      simp only [garbage_collect, hd, Bool.false_eq_true, if_false]
    | true =>
      simp only [garbage_collect, hd, if_true]
      rw [defragment_noop _ now hS1wf]
  have hcount1 : (garbage_collect s now).2.collectedBlocks = (gcScan s now).2 := by
    cases hd : decide ((gcScan s now).1.memoryPressure > gc_threshold) with
    | false =>
      simp only [garbage_collect, hd, Bool.false_eq_true, if_false]
      omega
    | true =>
      simp only [garbage_collect, hd, if_true]
      rw [defragment_noop _ now hS1wf]
      omega
  constructor
  · intro k p hp
    have hk512 : k ≤ 512 := by
      apply mem_pool_sizes_le
      rw [← hwf.1]
      exact List.mem_map.mpr ⟨(k, p), findPool_eq_some_mem s.pools k p hp, rfl⟩
    rw [hpools1, hscan]
    show findPool (s.pools.map (gcPoolTransform now)) k = _
    rw [findPool_map_gc now s.pools k p hp]
    unfold gcPoolTransformP
    have hkeep : ∀ b ∈ p.allocated,
        (!blockExpired now k b) = (!idleExpired now b) := by
      intro b _
      rw [blockExpired_eq_idle now k hk512 b]
    rw [List.filter_congr (fun b _ => blockExpired_eq_idle now k hk512 b),
      List.filter_congr hkeep]
  · rw [hcount1, hscan]
    show (s.pools.map (gcPoolCount now)).sum = _
    congr 1
    apply List.map_congr_left
    intro kp hkp
    have hk512 : kp.1 ≤ 512 := by
      apply mem_pool_sizes_le
      rw [← hwf.1]
      exact List.mem_map.mpr ⟨kp, hkp, rfl⟩
    unfold gcPoolCount
    rw [List.filter_congr (fun b _ => blockExpired_eq_idle now kp.1 hk512 b)]

/-- C5 witness: on the concrete ladder state whose ten allocated blocks were
all last accessed at time 0, a GC cycle at time 200 reclaims all ten. -/
theorem C5_witness : (garbage_collect smallState 200).2.collectedBlocks = 10 := by
  have h := C5_gc_idle_reclaim smallState 200 (by decide) (by decide)
  rw [h.2]
  decide
